import Mathlib

/-!
Verification development for the PARTY video-rewards platform.

The business core lives in `controllers.js` (the revision paired with the
`part_006` models file): a users collection with balances, an append-only
`Transaction` log, plan purchases, daily video rewards with a
timezone-based daily reset, referral bonuses, and admin-reconciled
deposit/withdrawal requests.  `part_005` is an earlier revision of the
same controllers; its `adjustUserBalance` is embedded separately.

Money is embedded as `ℚ` (the JavaScript code uses IEEE numbers; the
rational embedding captures the intended exact decimal arithmetic).
Timestamps are embedded as natural numbers measured in milliseconds of
local (Africa/Maputo) time, so `startOfDay` truncates to a multiple of
`dayLength`.  Mongo documents become Lean structures, collections become
lists, and `findById` / `save` become `findBy` / `replaceBy` keyed on a
numeric id.  Each controller action becomes a function
`DB → args → Except Err Unit × DB` returning the outcome together with
the persisted database (operations that save state before a guard fires,
such as the lazy daily reset, can change the database even on an error).
-/

namespace Party

/-- Generic keyed lookup (first match wins), mirroring `findById`. -/
def findBy {α : Type} (f : α → ℕ) (k : ℕ) : List α → Option α
  | [] => none
  | x :: l => if f x = k then some x else findBy f k l

/-- Generic keyed replacement, mirroring Mongoose `document.save()`:
every stored element with the same key is overwritten by `w`. -/
def replaceBy {α : Type} (f : α → ℕ) (w : α) : List α → List α
  | [] => []
  | x :: l => (if f x = f w then w else x) :: replaceBy f w l

/-- Milliseconds per day, the granularity of the Maputo-timezone reset rule. -/
def dayLength : ℕ := 86400000

/-- Start of the current business day (`moment.tz('Africa/Maputo').startOf('day')`). -/
def startOfDay (t : ℕ) : ℕ := dayLength * (t / dayLength)

/-- Transaction `type` enumeration from the `transactionSchema` in `part_006`. -/
inductive TxType
  | signup_bonus
  | deposit
  | plan_purchase
  | daily_reward
  | referral_plan
  | referral_daily
  | withdrawal
  | admin_credit
  | admin_debit
  deriving DecidableEq, Repr

/-- Transaction `status` enumeration (`pending`/`completed`/`cancelled`),
default `completed` in the schema. -/
inductive TxStatus
  | pending
  | completed
  | cancelled
  deriving DecidableEq, Repr

/-- A ledger entry (`Transaction` model).  Every `Transaction.create` call in
the controllers omits `status`, so the schema default `completed` applies. -/
structure Transaction where
  user : ℕ
  amount : ℚ
  type : TxType
  status : TxStatus := .completed
  description : String := ""
  referenceId : Option ℕ := none
  deriving DecidableEq, Repr

/-- A plan catalog entry (`Plan` model). -/
structure Plan where
  id : ℕ
  name : String
  cost : ℚ
  dailyVideoLimit : ℕ
  durationInDays : ℕ
  rewardPerVideo : ℚ
  totalReward : ℚ
  isActive : Bool
  deriving DecidableEq, Repr

/-- The `activePlan` subdocument embedded in a user. -/
structure ActivePlan where
  planId : ℕ
  name : String
  activationDate : ℕ
  expiryDate : ℕ
  deriving DecidableEq, Repr

/-- A user account (`User` model).  `dailyWatchedVideos` keeps only the video
ids (the stored per-entry `date` is never consulted by the controllers), and
`fullWatchedHistory` is the `addToSet` watch history. -/
structure User where
  id : ℕ
  username : String
  email : String
  referralCode : String
  balance : ℚ
  referredBy : Option ℕ
  activePlan : Option ActivePlan
  dailyWatchedVideos : List ℕ
  lastVideoReset : Option ℕ
  fullWatchedHistory : List ℕ
  isBlocked : Bool := false
  deriving DecidableEq, Repr

/-- Status of a deposit or withdrawal request. -/
inductive ReqStatus
  | pending
  | approved
  | rejected
  deriving DecidableEq, Repr

/-- A funding request (`Deposit` model); the proof-of-payment payload is not
consulted by any balance logic and is abstracted away. -/
structure Deposit where
  id : ℕ
  user : ℕ
  amount : ℚ
  paymentMethod : String
  status : ReqStatus := .pending
  deriving DecidableEq, Repr

/-- A payout request (`Withdrawal` model). -/
structure Withdrawal where
  id : ℕ
  user : ℕ
  amount : ℚ
  paymentMethod : String
  phoneNumber : String
  status : ReqStatus := .pending
  deriving DecidableEq, Repr

/-- The datastore: one list per Mongo collection.  Videos carry no field the
core logic reads besides their id, so the `videos` collection is a list of ids. -/
structure DB where
  users : List User
  plans : List Plan
  videos : List ℕ
  txns : List Transaction
  deposits : List Deposit
  withdrawals : List Withdrawal
  deriving DecidableEq, Repr

/-- The empty datastore. -/
def DB.init : DB := ⟨[], [], [], [], [], []⟩

def DB.findUser (db : DB) (uid : ℕ) : Option User := findBy User.id uid db.users

def DB.findPlan (db : DB) (pid : ℕ) : Option Plan := findBy Plan.id pid db.plans

def DB.findDeposit (db : DB) (did : ℕ) : Option Deposit := findBy Deposit.id did db.deposits

def DB.findWithdrawal (db : DB) (wid : ℕ) : Option Withdrawal := findBy Withdrawal.id wid db.withdrawals

def DB.saveUser (db : DB) (u : User) : DB := { db with users := replaceBy User.id u db.users }

def DB.saveDeposit (db : DB) (d : Deposit) : DB := { db with deposits := replaceBy Deposit.id d db.deposits }

def DB.saveWithdrawal (db : DB) (w : Withdrawal) : DB := { db with withdrawals := replaceBy Withdrawal.id w db.withdrawals }

/-- `Transaction.create`: the ledger is append-only. -/
def DB.addTxn (db : DB) (t : Transaction) : DB := { db with txns := db.txns ++ [t] }

/-- Business-rule error taxonomy; each constructor corresponds to one thrown
error message in the controllers.  The controllers collapse "request not
found" and "request already processed" into one message
(`'... não encontrado ou já processado.'`), embedded as `alreadyProcessed`. -/
inductive Err
  | validation
  | notFound
  | userExists
  | alreadyHasPlan
  | insufficientFunds
  | noActivePlan
  | quotaExhausted
  | alreadyCredited
  | alreadyProcessed
  | negativeBalance
  deriving DecidableEq, Repr

/-- Result of one controller action: the HTTP outcome and the persisted DB. -/
abbrev OpResult := Except Err Unit × DB

/-- `authController.registerUser`: checks required fields and
username/e-mail uniqueness, resolves the referral code, creates the user
with the 50 MT signup bonus baked into `balance`, and records a
`signup_bonus` ledger entry.  `uid`/`myCode` model the freshly generated
Mongo id and referral code. -/
def registerUser (db : DB) (uid : ℕ) (username email password : String)
    (referralCode : Option String) (myCode : String) : OpResult :=
  if username = "" ∨ email = "" ∨ password = "" then (.error .validation, db)
  else if db.users.any (fun u => u.email = email ∨ u.username = username) then
    (.error .userExists, db)
  else if db.users.any (fun u => u.id = uid) then (.error .userExists, db)
  else
    let referredBy := match referralCode with
      | none => none
      | some rc => (db.users.find? (fun u => u.referralCode = rc)).map User.id
    let user : User :=
      { id := uid, username := username, email := email, referralCode := myCode,
        balance := 50, referredBy := referredBy, activePlan := none,
        dailyWatchedVideos := [], lastVideoReset := none, fullWatchedHistory := [] }
    let db1 : DB := { db with users := db.users ++ [user] }
    (.ok (), db1.addTxn
      { user := uid, amount := 50, type := .signup_bonus,
        description := "Bônus de boas-vindas por cadastro." })

/-- Does the user hold a plan whose expiry lies strictly in the future
(`user.activePlan && user.activePlan.expiryDate > new Date()`)? -/
def hasUnexpiredPlan (user : User) (now : ℕ) : Bool :=
  match user.activePlan with
  | some ap => now < ap.expiryDate
  | none => false

/-- The referral-bonus block shared by `buyPlan` and `markVideoAsWatched`
(`if (user.referredBy) { const referrer = await User.findById(...); ... }`):
when the acting user has a referrer id that resolves to a stored account,
that account's balance is credited with `bonus` and a ledger entry of kind
`ty` is written; otherwise nothing happens. -/
def referralPost (db1 : DB) (rb : Option ℕ) (bonus : ℚ) (ty : TxType)
    (descr : String) (ref : Option ℕ) : DB :=
  match rb with
  | none => db1
  | some rid =>
    match db1.findUser rid with
    | none => db1
    | some referrer =>
      (db1.saveUser { referrer with balance := referrer.balance + bonus }).addTxn
        { user := rid, amount := bonus, type := ty, description := descr, referenceId := ref }

/-- `planController.buyPlan`: guards (plan active, no unexpired plan,
sufficient balance), then debits the cost, snapshots the plan reference with
`expiry = now + durationInDays` days, records a `plan_purchase` entry, and
pays the referrer a 10% `referral_plan` bonus when one exists. -/
def buyPlan (db : DB) (uid pid : ℕ) (now : ℕ) : OpResult :=
  match db.findPlan pid, db.findUser uid with
  | none, _ => (.error .notFound, db)
  | some _, none => (.error .notFound, db)
  | some plan, some user =>
    if ¬ plan.isActive then (.error .notFound, db)
    else if hasUnexpiredPlan user now then (.error .alreadyHasPlan, db)
    else if user.balance < plan.cost then (.error .insufficientFunds, db)
    else
      let user1 : User :=
        { user with
          balance := user.balance - plan.cost,
          activePlan := some
            { planId := plan.id, name := plan.name, activationDate := now,
              expiryDate := now + plan.durationInDays * dayLength } }
      let db1 := (db.saveUser user1).addTxn
        { user := uid, amount := -plan.cost, type := .plan_purchase,
          description := "Compra do plano " ++ plan.name }
      (.ok (), referralPost db1 user.referredBy (plan.cost * (1/10 : ℚ)) .referral_plan
        ("Bônus de 10% pela ativação do plano de " ++ user.username) (some uid))

/-- `checkAndResetDailyVideos`: if the stored reset timestamp predates the
start of today's Maputo business day (or is absent), clear the daily watch
set, stamp `lastVideoReset := now` and save the user immediately; otherwise
nothing is touched. -/
def checkAndResetDailyVideos (db : DB) (user : User) (now : ℕ) : User × DB :=
  if (match user.lastVideoReset with | none => true | some t => t < startOfDay now) then
    let u : User := { user with dailyWatchedVideos := [], lastVideoReset := some now }
    (u, db.saveUser u)
  else (user, db)

/-- `videoController.markVideoAsWatched`: requires an unexpired plan whose
catalog entry still resolves, runs the lazy daily reset, then checks the
daily quota and the per-day double-credit guard (in that order).  On success
it extends the daily set and the `addToSet` history, credits
`rewardPerVideo`, records a `daily_reward` entry, and pays the referrer a 5%
`referral_daily` bonus when one exists. -/
def markVideoAsWatched (db : DB) (uid vid : ℕ) (now : ℕ) : OpResult :=
  match db.findUser uid with
  | none => (.error .notFound, db)
  | some user =>
    match user.activePlan with
    | none => (.error .noActivePlan, db)
    | some ap =>
      match db.findPlan ap.planId with
      | none => (.error .noActivePlan, db)
      | some plan =>
        if ap.expiryDate < now then (.error .noActivePlan, db)
        else
          let reset := checkAndResetDailyVideos db user now
          let user0 := reset.1
          let db0 := reset.2
          if plan.dailyVideoLimit ≤ user0.dailyWatchedVideos.length then
            (.error .quotaExhausted, db0)
          else if vid ∈ user0.dailyWatchedVideos then (.error .alreadyCredited, db0)
          else
            let r := plan.rewardPerVideo
            let user1 : User :=
              { user0 with
                dailyWatchedVideos := user0.dailyWatchedVideos ++ [vid],
                fullWatchedHistory :=
                  if vid ∈ user0.fullWatchedHistory then user0.fullWatchedHistory
                  else user0.fullWatchedHistory ++ [vid],
                balance := user0.balance + r }
            let db1 := (db0.saveUser user1).addTxn
              { user := uid, amount := r, type := .daily_reward,
                description := "Recompensa por assistir vídeo.", referenceId := some vid }
            (.ok (), referralPost db1 user1.referredBy (r * (1/20 : ℚ)) .referral_daily
              ("Bônus de 5% sobre o ganho diário de " ++ user.username) (some uid))

/-- Response of `getDailyVideos`: the `canWatch` flag and the selected video ids. -/
structure DailyVideosResponse where
  canWatch : Bool
  videos : List ℕ
  deriving DecidableEq, Repr

/-- `videoController.getDailyVideos`: without an unexpired resolvable plan it
returns a 3-video sample with `canWatch = false`; otherwise it runs the lazy
reset, computes the remaining quota, serves videos outside the full watch
history and, if too few exist, backfills with a random sample drawn outside
both the history and today's daily set.  `sample` abstracts the Mongo
`$sample` stage (any selection function can be plugged in). -/
def getDailyVideos (db : DB) (uid : ℕ) (now : ℕ)
    (sample : List ℕ → ℕ → List ℕ) : DailyVideosResponse × DB :=
  match db.findUser uid with
  | none => (⟨false, sample db.videos 3⟩, db)
  | some user =>
    match user.activePlan with
    | none => (⟨false, sample db.videos 3⟩, db)
    | some ap =>
      match db.findPlan ap.planId with
      | none => (⟨false, sample db.videos 3⟩, db)
      | some plan =>
        if ap.expiryDate < now then (⟨false, sample db.videos 3⟩, db)
        else
          let reset := checkAndResetDailyVideos db user now
          let user0 := reset.1
          let db0 := reset.2
          let count := plan.dailyVideoLimit - user0.dailyWatchedVideos.length
          if count = 0 then (⟨true, []⟩, db0)
          else
            let available :=
              (db0.videos.filter (fun v => decide (v ∉ user0.fullWatchedHistory))).take count
            if available.length < count then
              (⟨true, available ++ sample
                  (db0.videos.filter (fun v =>
                    decide (v ∉ user0.fullWatchedHistory ∧ v ∉ user0.dailyWatchedVideos)))
                  (count - available.length)⟩, db0)
            else (⟨true, available⟩, db0)

/-- `walletController.requestDeposit`: field validation only; the request is
stored `pending` with no ledger entry and no balance effect.  `hasProof`
models `req.file || proofText`, `did` the generated Mongo id. -/
def requestDeposit (db : DB) (uid did : ℕ) (amount : ℚ) (paymentMethod : String)
    (hasProof : Bool) : OpResult :=
  if amount = 0 ∨ paymentMethod = "" then (.error .validation, db)
  else if ¬ hasProof then (.error .validation, db)
  else
    (.ok (), { db with deposits :=
      db.deposits ++ [{ id := did, user := uid, amount := amount, paymentMethod := paymentMethod }] })

/-- `walletController.requestWithdrawal`: field validation, then the
active-plan guard, then the balance guard, and only then is a `pending`
request stored — again with no ledger entry and no balance effect. -/
def requestWithdrawal (db : DB) (uid wid : ℕ) (amount : ℚ)
    (paymentMethod phoneNumber : String) (now : ℕ) : OpResult :=
  match db.findUser uid with
  | none => (.error .notFound, db)
  | some user =>
    if amount = 0 ∨ paymentMethod = "" ∨ phoneNumber = "" then (.error .validation, db)
    else if (match user.activePlan with | none => true | some ap => ap.expiryDate < now) then
      (.error .noActivePlan, db)
    else if user.balance < amount then (.error .insufficientFunds, db)
    else
      (.ok (), { db with withdrawals :=
        db.withdrawals ++
          [{ id := wid, user := uid, amount := amount,
             paymentMethod := paymentMethod, phoneNumber := phoneNumber }] })

/-- `adminFinanceController.approveDeposit`: a request that is missing or no
longer `pending` fails before any mutation; otherwise the amount is credited,
the request becomes `approved`, and a `deposit` ledger entry is recorded. -/
def approveDeposit (db : DB) (did : ℕ) : OpResult :=
  match db.findDeposit did with
  | none => (.error .alreadyProcessed, db)
  | some dep =>
    if dep.status ≠ .pending then (.error .alreadyProcessed, db)
    else
      match db.findUser dep.user with
      | none => (.error .notFound, db)
      | some user =>
        let db1 := (((db.saveUser { user with balance := user.balance + dep.amount }).saveDeposit
          { dep with status := .approved }).addTxn
          { user := user.id, amount := dep.amount, type := .deposit,
            description := "Depósito via " ++ dep.paymentMethod ++ " aprovado.",
            referenceId := some did })
        (.ok (), db1)

/-- `adminFinanceController.rejectDeposit`: same not-pending guard; a
rejection only flips the request status (no ledger entry, no balance). -/
def rejectDeposit (db : DB) (did : ℕ) : OpResult :=
  match db.findDeposit did with
  | none => (.error .alreadyProcessed, db)
  | some dep =>
    if dep.status ≠ .pending then (.error .alreadyProcessed, db)
    else (.ok (), db.saveDeposit { dep with status := .rejected })

/-- `adminFinanceController.approveWithdrawal`: after the not-pending guard,
a balance re-check at approval time auto-rejects (the rejected status is
committed before the error response); otherwise the amount is debited, the
request becomes `approved`, and a `withdrawal` entry of `-amount` is
recorded. -/
def approveWithdrawal (db : DB) (wid : ℕ) : OpResult :=
  match db.findWithdrawal wid with
  | none => (.error .alreadyProcessed, db)
  | some w =>
    if w.status ≠ .pending then (.error .alreadyProcessed, db)
    else
      match db.findUser w.user with
      | none => (.error .notFound, db)
      | some user =>
        if user.balance < w.amount then
          (.error .insufficientFunds, db.saveWithdrawal { w with status := .rejected })
        else
          let db1 := (((db.saveUser { user with balance := user.balance - w.amount }).saveWithdrawal
            { w with status := .approved }).addTxn
            { user := user.id, amount := -w.amount, type := .withdrawal,
              description := "Levantamento para " ++ w.phoneNumber ++ " aprovado.",
              referenceId := some wid })
          (.ok (), db1)

/-- `adminFinanceController.rejectWithdrawal`: same not-pending guard;
rejection only flips the status. -/
def rejectWithdrawal (db : DB) (wid : ℕ) : OpResult :=
  match db.findWithdrawal wid with
  | none => (.error .alreadyProcessed, db)
  | some w =>
    if w.status ≠ .pending then (.error .alreadyProcessed, db)
    else (.ok (), db.saveWithdrawal { w with status := .rejected })

/-- `adminUserController.manualBalanceUpdate`: validates the fields, adds the
signed amount to the in-memory balance, and only then checks for negativity —
a negative outcome aborts the transaction (nothing persists); otherwise the
new balance and an `admin_credit`/`admin_debit` entry are committed. -/
def manualBalanceUpdate (db : DB) (uid : ℕ) (amount : ℚ) (description : String) : OpResult :=
  match db.findUser uid with
  | none => (.error .notFound, db)
  | some user =>
    if amount = 0 ∨ description = "" then (.error .validation, db)
    else
      let newBalance := user.balance + amount
      if newBalance < 0 then (.error .negativeBalance, db)
      else
        (.ok (), (db.saveUser { user with balance := newBalance }).addTxn
          { user := uid, amount := amount,
            type := if 0 < amount then .admin_credit else .admin_debit,
            description := "Ajuste manual: " ++ description })

/-- `adminPlanController.createPlan`: stores a new active catalog entry with
the computed `totalReward`. -/
def createPlan (db : DB) (pid : ℕ) (name : String) (cost : ℚ)
    (dailyVideoLimit durationInDays : ℕ) (rewardPerVideo : ℚ) : OpResult :=
  (.ok (), { db with plans := db.plans ++
    [{ id := pid, name := name, cost := cost, dailyVideoLimit := dailyVideoLimit,
       durationInDays := durationInDays, rewardPerVideo := rewardPerVideo,
       totalReward := (dailyVideoLimit * durationInDays : ℕ) * rewardPerVideo,
       isActive := true }] })

/-- `adminVideoController.uploadVideo`: stores a new video (`vid` models the
freshly generated Mongo id). -/
def uploadVideo (db : DB) (vid : ℕ) : OpResult :=
  (.ok (), { db with videos := db.videos ++ [vid] })

/-- `adminVideoController.deleteVideo`: removes the video and pulls its id
from every user's `fullWatchedHistory` — but not from `dailyWatchedVideos`. -/
def deleteVideo (db : DB) (vid : ℕ) : OpResult :=
  if vid ∈ db.videos then
    (.ok (), { db with
      videos := db.videos.filter (fun v => decide (v ≠ vid)),
      users := db.users.map (fun u =>
        { u with fullWatchedHistory := u.fullWatchedHistory.filter (fun v => decide (v ≠ vid)) }) })
  else (.error .notFound, db)

/-- One observable controller action of the embedded system.  The freshness
hypothesis on `newVideo` reflects that Mongo ObjectIds are never reused, so a
newly created video id cannot coincide with an id recorded in any watch set. -/
inductive Step : DB → DB → Prop
  | register (db : DB) (uid : ℕ) (username email password : String)
      (referralCode : Option String) (myCode : String) :
      Step db (registerUser db uid username email password referralCode myCode).2
  | buy (db : DB) (uid pid now : ℕ) : Step db (buyPlan db uid pid now).2
  | watch (db : DB) (uid vid now : ℕ) : Step db (markVideoAsWatched db uid vid now).2
  | daily (db : DB) (uid now : ℕ) (sample : List ℕ → ℕ → List ℕ) :
      Step db (getDailyVideos db uid now sample).2
  | reqDeposit (db : DB) (uid did : ℕ) (amount : ℚ) (pm : String) (hasProof : Bool) :
      Step db (requestDeposit db uid did amount pm hasProof).2
  | reqWithdrawal (db : DB) (uid wid : ℕ) (amount : ℚ) (pm ph : String) (now : ℕ) :
      Step db (requestWithdrawal db uid wid amount pm ph now).2
  | appDeposit (db : DB) (did : ℕ) : Step db (approveDeposit db did).2
  | rejDeposit (db : DB) (did : ℕ) : Step db (rejectDeposit db did).2
  | appWithdrawal (db : DB) (wid : ℕ) : Step db (approveWithdrawal db wid).2
  | rejWithdrawal (db : DB) (wid : ℕ) : Step db (rejectWithdrawal db wid).2
  | manual (db : DB) (uid : ℕ) (amount : ℚ) (description : String) :
      Step db (manualBalanceUpdate db uid amount description).2
  | newPlan (db : DB) (pid : ℕ) (name : String) (cost : ℚ) (lim dur : ℕ) (reward : ℚ) :
      Step db (createPlan db pid name cost lim dur reward).2
  | newVideo (db : DB) (vid : ℕ)
      (hfresh : vid ∉ db.videos ∧
        ∀ u ∈ db.users, vid ∉ u.dailyWatchedVideos ∧ vid ∉ u.fullWatchedHistory) :
      Step db (uploadVideo db vid).2
  | delVideo (db : DB) (vid : ℕ) : Step db (deleteVideo db vid).2

/-- A database is reachable when some sequence of controller actions produces
it from the empty datastore. -/
def Reachable (db : DB) : Prop := Relation.ReflTransGen Step DB.init db

end Party

namespace Part005

/-- A user as far as `adjustUserBalance` in `part_005` reads it. -/
structure P5User where
  balance : ℚ
  deriving DecidableEq, Repr

/-- The `manual_adjustment` transaction written by `adjustUserBalance`. -/
structure P5Txn where
  amount : ℚ
  type : String
  deriving DecidableEq, Repr

/-- `adjustUserBalance` from `part_005` (an earlier controllers revision):
after validating `amount > 0` and `type ∈ {add, remove}`, an `add` credits
the balance and a `remove` debits it with no negativity check whatsoever. -/
def adjustUserBalance (user : P5User) (amount : ℚ) (ty : String) :
    Except String (P5User × P5Txn) :=
  if ¬ 0 < amount then .error "Valor inválido. Deve ser um número positivo."
  else if ¬ (ty = "add" ∨ ty = "remove") then .error "Tipo de ajuste inválido."
  else if ty = "add" then
    .ok ({ balance := user.balance + amount }, { amount := amount, type := "manual_adjustment" })
  else
    .ok ({ balance := user.balance - amount }, { amount := -amount, type := "manual_adjustment" })

end Part005

namespace Party

lemma saveUser_users (db : DB) (u : User) :
    (db.saveUser u).users = replaceBy User.id u db.users := rfl

lemma saveUser_txns (db : DB) (u : User) : (db.saveUser u).txns = db.txns := rfl

lemma saveUser_videos (db : DB) (u : User) : (db.saveUser u).videos = db.videos := rfl

lemma saveUser_plans (db : DB) (u : User) : (db.saveUser u).plans = db.plans := rfl

lemma addTxn_users (db : DB) (t : Transaction) : (db.addTxn t).users = db.users := rfl

lemma addTxn_txns (db : DB) (t : Transaction) : (db.addTxn t).txns = db.txns ++ [t] := rfl

lemma addTxn_videos (db : DB) (t : Transaction) : (db.addTxn t).videos = db.videos := rfl

lemma addTxn_plans (db : DB) (t : Transaction) : (db.addTxn t).plans = db.plans := rfl

lemma saveDeposit_users (db : DB) (d : Deposit) : (db.saveDeposit d).users = db.users := rfl

lemma saveDeposit_txns (db : DB) (d : Deposit) : (db.saveDeposit d).txns = db.txns := rfl

lemma saveDeposit_videos (db : DB) (d : Deposit) : (db.saveDeposit d).videos = db.videos := rfl

lemma saveWithdrawal_users (db : DB) (w : Withdrawal) : (db.saveWithdrawal w).users = db.users := rfl

lemma saveWithdrawal_txns (db : DB) (w : Withdrawal) : (db.saveWithdrawal w).txns = db.txns := rfl

lemma saveWithdrawal_videos (db : DB) (w : Withdrawal) : (db.saveWithdrawal w).videos = db.videos := rfl

lemma findBy_mem {α : Type} {f : α → ℕ} {k : ℕ} {l : List α} {x : α}
    (h : findBy f k l = some x) : x ∈ l := by
  induction l with
  | nil => simp [findBy] at h
  | cons a tl ih =>
    by_cases hfa : f a = k
    · simp only [findBy, if_pos hfa, Option.some.injEq] at h
      exact h ▸ List.mem_cons_self a tl
    · simp only [findBy, if_neg hfa] at h
      exact List.mem_cons_of_mem a (ih h)

lemma findBy_key {α : Type} {f : α → ℕ} {k : ℕ} {l : List α} {x : α}
    (h : findBy f k l = some x) : f x = k := by
  induction l with
  | nil => simp [findBy] at h
  | cons a tl ih =>
    by_cases hfa : f a = k
    · simp only [findBy, if_pos hfa, Option.some.injEq] at h
      exact h ▸ hfa
    · simp only [findBy, if_neg hfa] at h
      exact ih h

lemma mem_replaceBy {α : Type} {f : α → ℕ} {w : α} {l : List α} {y : α}
    (h : y ∈ replaceBy f w l) : y = w ∨ (y ∈ l ∧ f y ≠ f w) := by
  induction l with
  | nil => simp [replaceBy] at h
  | cons a tl ih =>
    simp only [replaceBy, List.mem_cons] at h
    rcases h with h | h
    · by_cases hfa : f a = f w
      · rw [if_pos hfa] at h
        exact Or.inl h
      · rw [if_neg hfa] at h
        exact Or.inr ⟨h ▸ List.mem_cons_self a tl, h ▸ hfa⟩
    · rcases ih h with h' | ⟨hmem, hne⟩
      · exact Or.inl h'
      · exact Or.inr ⟨List.mem_cons_of_mem a hmem, hne⟩

lemma ite_mem_replaceBy {α : Type} {f : α → ℕ} (w : α) {l : List α} {x : α} (hx : x ∈ l) :
    (if f x = f w then w else x) ∈ replaceBy f w l := by
  induction l with
  | nil => simp at hx
  | cons a tl ih =>
    rcases List.mem_cons.1 hx with rfl | hx'
    · exact List.mem_cons_self _ _
    · exact List.mem_cons_of_mem _ (ih hx')

lemma replaceBy_key_cover {α : Type} {f : α → ℕ} (w : α) {l : List α} {x : α} (hx : x ∈ l) :
    ∃ y ∈ replaceBy f w l, f y = f x := by
  refine ⟨if f x = f w then w else x, ite_mem_replaceBy w hx, ?_⟩
  by_cases hfx : f x = f w
  · rw [if_pos hfx, hfx]
  · rw [if_neg hfx]

lemma mem_replaceBy_self {α : Type} {f : α → ℕ} {w : α} {l : List α} {x : α} (hx : x ∈ l)
    (hk : f x = f w) : w ∈ replaceBy f w l := by
  have h := @ite_mem_replaceBy _ f w _ _ hx
  rwa [if_pos hk] at h

lemma findBy_replaceBy_self {α : Type} {f : α → ℕ} {w : α} {l : List α} {x : α}
    (h : findBy f (f w) l = some x) :
    findBy f (f w) (replaceBy f w l) = some w := by
  induction l with
  | nil => simp [findBy] at h
  | cons a tl ih =>
    by_cases hfa : f a = f w
    · simp [findBy, replaceBy, hfa]
    · simp only [findBy, if_neg hfa] at h
      simp only [replaceBy, if_neg hfa, findBy, if_neg hfa]
      exact ih h

lemma findBy_replaceBy_ne {α : Type} {f : α → ℕ} {w : α} {l : List α} {k : ℕ} (hk : f w ≠ k) :
    findBy f k (replaceBy f w l) = findBy f k l := by
  induction l with
  | nil => rfl
  | cons a tl ih =>
    by_cases hfw : f a = f w
    · have hfa : ¬ f a = k := by
        rw [hfw]
        exact hk
      simp only [replaceBy, if_pos hfw, findBy, if_neg hk, if_neg hfa]
      exact ih
    · simp only [replaceBy, if_neg hfw, findBy]
      by_cases hfa : f a = k
      · simp [if_pos hfa]
      · simp only [if_neg hfa]
        exact ih

/-- Sum of the amounts of the `completed` ledger entries belonging to `uid`. -/
def sumFor (txns : List Transaction) (uid : ℕ) : ℚ :=
  ((txns.filter (fun t => decide (t.user = uid ∧ t.status = .completed))).map
    Transaction.amount).sum

lemma sumFor_append (txns : List Transaction) (t : Transaction) (uid : ℕ) :
    sumFor (txns ++ [t]) uid =
      sumFor txns uid + (if t.user = uid ∧ t.status = .completed then t.amount else 0) := by
  by_cases h : t.user = uid ∧ t.status = .completed
  · simp [sumFor, List.filter_append, h]
  · simp [sumFor, List.filter_append, h]

lemma sumFor_eq_zero {txns : List Transaction} {uid : ℕ} (h : ∀ t ∈ txns, t.user ≠ uid) :
    sumFor txns uid = 0 := by
  have hnil : txns.filter (fun t => decide (t.user = uid ∧ t.status = .completed)) = [] := by
    rw [List.filter_eq_nil_iff]
    intro t ht
    simp [h t ht]
  simp only [sumFor]
  rw [hnil]
  rfl

/-- The reconciliation relation between a users collection and a ledger:
every user's balance equals the sum of that user's completed entries, and
every entry belongs to a stored user. -/
def LedgerState (users : List User) (txns : List Transaction) : Prop :=
  (∀ u ∈ users, u.balance = sumFor txns u.id) ∧
  (∀ t ∈ txns, ∃ u ∈ users, u.id = t.user)

/-- The reconciliation invariant, read off a whole database. -/
def LedgerInv (db : DB) : Prop := LedgerState db.users db.txns

lemma ledgerState_post {users : List User} {txns : List Transaction} {u u' : User}
    {t : Transaction}
    (hfind : findBy User.id u.id users = some u)
    (hid : u'.id = u.id) (hbal : u'.balance = u.balance + t.amount)
    (htu : t.user = u.id) (hts : t.status = .completed)
    (h : LedgerState users txns) :
    LedgerState (replaceBy User.id u' users) (txns ++ [t]) := by
  obtain ⟨h1, h2⟩ := h
  have humem : u ∈ users := findBy_mem hfind
  constructor
  · intro w hw
    rcases mem_replaceBy hw with rfl | ⟨hwl, hwne⟩
    · have hcond : t.user = w.id ∧ t.status = .completed := ⟨by rw [htu, hid], hts⟩
      rw [sumFor_append, if_pos hcond, hbal, h1 u humem, hid]
    · have hcond : ¬ (t.user = w.id ∧ t.status = .completed) := by
        rintro ⟨hcon, -⟩
        apply hwne
        show w.id = u'.id
        rw [hid, ← hcon]
        exact htu
      rw [sumFor_append, if_neg hcond, add_zero]
      exact h1 w hwl
  · intro t' ht'
    rcases List.mem_append.1 ht' with h' | h'
    · obtain ⟨v, hv, hvid⟩ := h2 t' h'
      obtain ⟨y, hy, hyk⟩ := replaceBy_key_cover u' hv
      exact ⟨y, hy, by rw [hyk, hvid]⟩
    · have ht : t' = t := by simpa using h'
      subst ht
      refine ⟨u', mem_replaceBy_self humem hid.symm, ?_⟩
      rw [hid, htu]

lemma ledgerState_save {users : List User} {txns : List Transaction} {u u' : User}
    (hfind : findBy User.id u.id users = some u)
    (hid : u'.id = u.id) (hbal : u'.balance = u.balance)
    (h : LedgerState users txns) :
    LedgerState (replaceBy User.id u' users) txns := by
  obtain ⟨h1, h2⟩ := h
  have humem : u ∈ users := findBy_mem hfind
  constructor
  · intro w hw
    rcases mem_replaceBy hw with rfl | ⟨hwl, _⟩
    · rw [hbal, h1 u humem, hid]
    · exact h1 w hwl
  · intro t' ht'
    obtain ⟨v, hv, hvid⟩ := h2 t' ht'
    obtain ⟨y, hy, hyk⟩ := replaceBy_key_cover u' hv
    exact ⟨y, hy, by rw [hyk, hvid]⟩

lemma ledgerState_map {users : List User} {txns : List Transaction} (g : User → User)
    (hid : ∀ u, (g u).id = u.id) (hbal : ∀ u, (g u).balance = u.balance)
    (h : LedgerState users txns) :
    LedgerState (users.map g) txns := by
  obtain ⟨h1, h2⟩ := h
  constructor
  · intro w hw
    obtain ⟨v, hv, rfl⟩ := List.mem_map.1 hw
    rw [hbal, hid]
    exact h1 v hv
  · intro t' ht'
    obtain ⟨v, hv, hvid⟩ := h2 t' ht'
    exact ⟨g v, List.mem_map_of_mem g hv, by rw [hid, hvid]⟩

lemma ledgerState_register {users : List User} {txns : List Transaction} {u : User}
    {t : Transaction}
    (hfresh : ∀ v ∈ users, v.id ≠ u.id)
    (hbal : u.balance = t.amount) (htu : t.user = u.id) (hts : t.status = .completed)
    (h : LedgerState users txns) :
    LedgerState (users ++ [u]) (txns ++ [t]) := by
  obtain ⟨h1, h2⟩ := h
  have hnot : ∀ t' ∈ txns, t'.user ≠ u.id := by
    intro t' ht' hcon
    obtain ⟨v, hv, hvid⟩ := h2 t' ht'
    exact hfresh v hv (by rw [hvid, hcon])
  constructor
  · intro w hw
    rcases List.mem_append.1 hw with hw' | hw'
    · have hcond : ¬ (t.user = w.id ∧ t.status = .completed) := by
        rintro ⟨hcon, -⟩
        apply hfresh w hw'
        rw [← hcon]
        exact htu
      rw [sumFor_append, if_neg hcond, add_zero]
      exact h1 w hw'
    · have hwu : w = u := by simpa using hw'
      subst hwu
      rw [sumFor_append, if_pos ⟨htu, hts⟩, sumFor_eq_zero hnot, zero_add, hbal]
  · intro t' ht'
    rcases List.mem_append.1 ht' with h' | h'
    · obtain ⟨v, hv, hvid⟩ := h2 t' h'
      exact ⟨v, List.mem_append_left _ hv, hvid⟩
    · have ht : t' = t := by simpa using h'
      subst ht
      exact ⟨u, List.mem_append_right _ (List.mem_cons_self u []), htu.symm⟩

lemma findUser_key {db : DB} {k : ℕ} {u : User} (h : db.findUser k = some u) : u.id = k :=
  findBy_key h

lemma findUser_findBy {db : DB} {k : ℕ} {u : User} (h : db.findUser k = some u) :
    findBy User.id u.id db.users = some u := by
  have hk : u.id = k := findBy_key h
  rw [hk]
  exact h

lemma ledgerInv_referralPost (db1 : DB) (rb : Option ℕ) (bonus : ℚ) (ty : TxType)
    (descr : String) (ref : Option ℕ) (h : LedgerInv db1) :
    LedgerInv (referralPost db1 rb bonus ty descr ref) := by
  unfold referralPost
  split
  · exact h
  split
  · exact h
  next referrer hreferrer =>
    exact ledgerState_post (findUser_findBy hreferrer) rfl rfl
      (findUser_key hreferrer).symm rfl h

lemma ledgerInv_checkReset {db : DB} {user : User} {now : ℕ}
    (hfind : findBy User.id user.id db.users = some user) (h : LedgerInv db) :
    LedgerInv (checkAndResetDailyVideos db user now).2 := by
  unfold checkAndResetDailyVideos
  split
  · exact ledgerState_save hfind rfl rfl h
  · exact h

lemma checkReset_id {db : DB} {user : User} {now : ℕ} :
    (checkAndResetDailyVideos db user now).1.id = user.id := by
  unfold checkAndResetDailyVideos
  split <;> rfl

lemma checkReset_balance {db : DB} {user : User} {now : ℕ} :
    (checkAndResetDailyVideos db user now).1.balance = user.balance := by
  unfold checkAndResetDailyVideos
  split <;> rfl

lemma checkReset_plans {db : DB} {user : User} {now : ℕ} :
    (checkAndResetDailyVideos db user now).2.plans = db.plans := by
  unfold checkAndResetDailyVideos
  split <;> rfl

lemma checkReset_videos {db : DB} {user : User} {now : ℕ} :
    (checkAndResetDailyVideos db user now).2.videos = db.videos := by
  unfold checkAndResetDailyVideos
  split <;> rfl

lemma checkReset_txns {db : DB} {user : User} {now : ℕ} :
    (checkAndResetDailyVideos db user now).2.txns = db.txns := by
  unfold checkAndResetDailyVideos
  split <;> rfl

lemma findUser_checkReset {db : DB} {user : User} {now : ℕ} {uid : ℕ}
    (hfind : db.findUser uid = some user) :
    (checkAndResetDailyVideos db user now).2.findUser uid =
      some (checkAndResetDailyVideos db user now).1 := by
  have hid : user.id = uid := findUser_key hfind
  unfold checkAndResetDailyVideos
  split
  · show (db.saveUser _).findUser uid = _
    have h1 : findBy User.id
        (User.id { user with dailyWatchedVideos := [], lastVideoReset := some now })
        db.users = some user := by
      show findBy User.id user.id db.users = some user
      rw [hid]
      exact hfind
    have h2 := findBy_replaceBy_self h1
    show findBy User.id uid (replaceBy User.id _ db.users) = _
    rw [← hid]
    exact h2
  · exact hfind

lemma ledgerInv_registerUser (db : DB) (uid : ℕ) (un em pw : String)
    (rc : Option String) (mc : String) (h : LedgerInv db) :
    LedgerInv (registerUser db uid un em pw rc mc).2 := by
  unfold registerUser
  split
  · exact h
  split
  · exact h
  split
  · exact h
  next hids =>
    have hfresh : ∀ v ∈ db.users, v.id ≠ uid := by
      intro v hv hcon
      exact hids (List.any_eq_true.2 ⟨v, hv, by simp [hcon]⟩)
    exact ledgerState_register hfresh rfl rfl rfl h

lemma ledgerInv_buyPlan (db : DB) (uid pid now : ℕ) (h : LedgerInv db) :
    LedgerInv (buyPlan db uid pid now).2 := by
  unfold buyPlan
  dsimp only
  split
  · exact h
  · exact h
  next plan user hplan huser =>
    split
    · exact h
    split
    · exact h
    split
    · exact h
    have h1 : LedgerInv ((db.saveUser
        { user with
          balance := user.balance - plan.cost,
          activePlan := some
            { planId := plan.id, name := plan.name, activationDate := now,
              expiryDate := now + plan.durationInDays * dayLength } }).addTxn
        { user := uid, amount := -plan.cost, type := .plan_purchase,
          description := "Compra do plano " ++ plan.name }) := by
      refine ledgerState_post (findUser_findBy huser) rfl ?_ (findUser_key huser).symm rfl h
      show user.balance - plan.cost = user.balance + -plan.cost
      ring
    exact ledgerInv_referralPost _ _ _ _ _ _ h1

lemma ledgerInv_markWatched (db : DB) (uid vid now : ℕ) (h : LedgerInv db) :
    LedgerInv (markVideoAsWatched db uid vid now).2 := by
  unfold markVideoAsWatched
  dsimp only
  split
  · exact h
  next user huser =>
    split
    · exact h
    next ap hap =>
      split
      · exact h
      next plan hplan =>
        split
        · exact h
        have hres : LedgerInv (checkAndResetDailyVideos db user now).2 :=
          ledgerInv_checkReset (findUser_findBy huser) h
        have hfind0 := @findUser_checkReset _ _ now _ huser
        split
        · exact hres
        split
        · exact hres
        next hquota hnew =>
          have h1 : LedgerInv (((checkAndResetDailyVideos db user now).2.saveUser
              { (checkAndResetDailyVideos db user now).1 with
                dailyWatchedVideos :=
                  (checkAndResetDailyVideos db user now).1.dailyWatchedVideos ++ [vid],
                fullWatchedHistory :=
                  if vid ∈ (checkAndResetDailyVideos db user now).1.fullWatchedHistory then
                    (checkAndResetDailyVideos db user now).1.fullWatchedHistory
                  else (checkAndResetDailyVideos db user now).1.fullWatchedHistory ++ [vid],
                balance := (checkAndResetDailyVideos db user now).1.balance +
                  plan.rewardPerVideo }).addTxn
              { user := uid, amount := plan.rewardPerVideo, type := .daily_reward,
                description := "Recompensa por assistir vídeo.", referenceId := some vid }) := by
            refine ledgerState_post (findUser_findBy hfind0) rfl rfl ?_ rfl hres
            show uid = (checkAndResetDailyVideos db user now).1.id
            rw [checkReset_id, findUser_key huser]
          exact ledgerInv_referralPost _ _ _ _ _ _ h1

lemma ledgerInv_getDailyVideos (db : DB) (uid now : ℕ) (sample : List ℕ → ℕ → List ℕ)
    (h : LedgerInv db) : LedgerInv (getDailyVideos db uid now sample).2 := by
  unfold getDailyVideos
  dsimp only
  split
  · exact h
  next user huser =>
    split
    · exact h
    next ap hap =>
      split
      · exact h
      next plan hplan =>
        split
        · exact h
        have hres : LedgerInv (checkAndResetDailyVideos db user now).2 :=
          ledgerInv_checkReset (findUser_findBy huser) h
        split
        · exact hres
        split
        · exact hres
        · exact hres

lemma ledgerInv_requestDeposit (db : DB) (uid did : ℕ) (amount : ℚ) (pm : String)
    (hp : Bool) (h : LedgerInv db) : LedgerInv (requestDeposit db uid did amount pm hp).2 := by
  unfold requestDeposit
  split
  · exact h
  split
  · exact h
  · exact h

lemma ledgerInv_requestWithdrawal (db : DB) (uid wid : ℕ) (amount : ℚ) (pm ph : String)
    (now : ℕ) (h : LedgerInv db) :
    LedgerInv (requestWithdrawal db uid wid amount pm ph now).2 := by
  unfold requestWithdrawal
  split
  · exact h
  next user huser =>
    split
    · exact h
    split
    · exact h
    split
    · exact h
    · exact h

lemma ledgerInv_approveDeposit (db : DB) (did : ℕ) (h : LedgerInv db) :
    LedgerInv (approveDeposit db did).2 := by
  unfold approveDeposit
  split
  · exact h
  next dep hdep =>
    split
    · exact h
    split
    · exact h
    next user huser =>
      exact ledgerState_post (findUser_findBy huser) rfl rfl rfl rfl h

lemma ledgerInv_rejectDeposit (db : DB) (did : ℕ) (h : LedgerInv db) :
    LedgerInv (rejectDeposit db did).2 := by
  unfold rejectDeposit
  split
  · exact h
  next dep hdep =>
    split
    · exact h
    · exact h

lemma ledgerInv_approveWithdrawal (db : DB) (wid : ℕ) (h : LedgerInv db) :
    LedgerInv (approveWithdrawal db wid).2 := by
  unfold approveWithdrawal
  split
  · exact h
  next w hw =>
    split
    · exact h
    split
    · exact h
    next user huser =>
      split
      · exact h
      · refine ledgerState_post (findUser_findBy huser) rfl ?_ rfl rfl h
        show user.balance - w.amount = user.balance + -w.amount
        ring

lemma ledgerInv_rejectWithdrawal (db : DB) (wid : ℕ) (h : LedgerInv db) :
    LedgerInv (rejectWithdrawal db wid).2 := by
  unfold rejectWithdrawal
  split
  · exact h
  next w hw =>
    split
    · exact h
    · exact h

lemma ledgerInv_manualBalanceUpdate (db : DB) (uid : ℕ) (amount : ℚ) (description : String)
    (h : LedgerInv db) : LedgerInv (manualBalanceUpdate db uid amount description).2 := by
  unfold manualBalanceUpdate
  dsimp only
  split
  · exact h
  next user huser =>
    split
    · exact h
    split
    · exact h
    · exact ledgerState_post (findUser_findBy huser) rfl rfl (findUser_key huser).symm rfl h

lemma ledgerInv_createPlan (db : DB) (pid : ℕ) (name : String) (cost : ℚ)
    (lim dur : ℕ) (reward : ℚ) (h : LedgerInv db) :
    LedgerInv (createPlan db pid name cost lim dur reward).2 := h

lemma ledgerInv_uploadVideo (db : DB) (vid : ℕ) (h : LedgerInv db) :
    LedgerInv (uploadVideo db vid).2 := h

lemma ledgerInv_deleteVideo (db : DB) (vid : ℕ) (h : LedgerInv db) :
    LedgerInv (deleteVideo db vid).2 := by
  unfold deleteVideo
  split
  · exact ledgerState_map _ (fun u => rfl) (fun u => rfl) h
  · exact h

lemma step_ledgerInv {a b : DB} (hs : Step a b) (h : LedgerInv a) : LedgerInv b := by
  cases hs with
  | register uid un em pw rc mc => exact ledgerInv_registerUser a uid un em pw rc mc h
  | buy uid pid now => exact ledgerInv_buyPlan a uid pid now h
  | watch uid vid now => exact ledgerInv_markWatched a uid vid now h
  | daily uid now sample => exact ledgerInv_getDailyVideos a uid now sample h
  | reqDeposit uid did amount pm hp => exact ledgerInv_requestDeposit a uid did amount pm hp h
  | reqWithdrawal uid wid amount pm ph now =>
      exact ledgerInv_requestWithdrawal a uid wid amount pm ph now h
  | appDeposit did => exact ledgerInv_approveDeposit a did h
  | rejDeposit did => exact ledgerInv_rejectDeposit a did h
  | appWithdrawal wid => exact ledgerInv_approveWithdrawal a wid h
  | rejWithdrawal wid => exact ledgerInv_rejectWithdrawal a wid h
  | manual uid amount description => exact ledgerInv_manualBalanceUpdate a uid amount description h
  | newPlan pid name cost lim dur reward => exact ledgerInv_createPlan a pid name cost lim dur reward h
  | newVideo vid hfresh => exact ledgerInv_uploadVideo a vid h
  | delVideo vid => exact ledgerInv_deleteVideo a vid h

lemma reachable_ledgerInv {db : DB} (h : Reachable db) : LedgerInv db := by
  unfold Reachable at h
  induction h with
  | refl => exact ⟨by simp [DB.init], by simp [DB.init]⟩
  | tail _ hstep ih => exact step_ledgerInv hstep ih

/-- Containment between watch sets, restricted to videos still in the store:
any video in a user's daily watch set that still exists is also in that
user's full watch history. -/
def WatchState (users : List User) (videos : List ℕ) : Prop :=
  ∀ u ∈ users, ∀ v ∈ u.dailyWatchedVideos, v ∈ videos → v ∈ u.fullWatchedHistory

/-- The watch-set containment invariant, read off a whole database. -/
def WatchInv (db : DB) : Prop := WatchState db.users db.videos

lemma watchState_replace {users : List User} {videos : List ℕ} {u' : User}
    (hu' : ∀ v ∈ u'.dailyWatchedVideos, v ∈ videos → v ∈ u'.fullWatchedHistory)
    (h : WatchState users videos) :
    WatchState (replaceBy User.id u' users) videos := by
  intro w hw v hv hvs
  rcases mem_replaceBy hw with rfl | ⟨hwl, _⟩
  · exact hu' v hv hvs
  · exact h w hwl v hv hvs

lemma watchInv_referralPost (db1 : DB) (rb : Option ℕ) (bonus : ℚ) (ty : TxType)
    (descr : String) (ref : Option ℕ) (h : WatchInv db1) :
    WatchInv (referralPost db1 rb bonus ty descr ref) := by
  unfold referralPost
  split
  · exact h
  split
  · exact h
  next referrer hreferrer =>
    have hrmem : referrer ∈ db1.users := findBy_mem (findUser_findBy hreferrer)
    exact watchState_replace (fun v hv hvs => h referrer hrmem v hv hvs) h

lemma checkReset_daily_sub {db : DB} {user : User} {now : ℕ} :
    ∀ v ∈ (checkAndResetDailyVideos db user now).1.dailyWatchedVideos,
      v ∈ user.dailyWatchedVideos := by
  unfold checkAndResetDailyVideos
  split
  · intro v hv
    simp at hv
  · intro v hv
    exact hv

lemma checkReset_full {db : DB} {user : User} {now : ℕ} :
    (checkAndResetDailyVideos db user now).1.fullWatchedHistory = user.fullWatchedHistory := by
  unfold checkAndResetDailyVideos
  split <;> rfl

lemma watchInv_checkReset {db : DB} {user : User} {now : ℕ}
    (h : WatchInv db) :
    WatchInv (checkAndResetDailyVideos db user now).2 := by
  unfold checkAndResetDailyVideos
  split
  · refine watchState_replace ?_ h
    intro v hv
    simp at hv
  · exact h

lemma watchInv_registerUser (db : DB) (uid : ℕ) (un em pw : String)
    (rc : Option String) (mc : String) (h : WatchInv db) :
    WatchInv (registerUser db uid un em pw rc mc).2 := by
  unfold registerUser
  split
  · exact h
  split
  · exact h
  split
  · exact h
  · intro w hw v hv hvs
    rcases List.mem_append.1 hw with hw' | hw'
    · exact h w hw' v hv hvs
    · have hwu := by simpa using hw'
      subst hwu
      simp at hv

lemma watchInv_buyPlan (db : DB) (uid pid now : ℕ) (h : WatchInv db) :
    WatchInv (buyPlan db uid pid now).2 := by
  unfold buyPlan
  dsimp only
  split
  · exact h
  · exact h
  next plan user hplan huser =>
    split
    · exact h
    split
    · exact h
    split
    · exact h
    have humem : user ∈ db.users := findBy_mem (findUser_findBy huser)
    have h1 : WatchInv ((db.saveUser
        { user with
          balance := user.balance - plan.cost,
          activePlan := some
            { planId := plan.id, name := plan.name, activationDate := now,
              expiryDate := now + plan.durationInDays * dayLength } }).addTxn
        { user := uid, amount := -plan.cost, type := .plan_purchase,
          description := "Compra do plano " ++ plan.name }) :=
      watchState_replace (fun v hv hvs => h user humem v hv hvs) h
    exact watchInv_referralPost _ _ _ _ _ _ h1

lemma watchInv_markWatched (db : DB) (uid vid now : ℕ) (h : WatchInv db) :
    WatchInv (markVideoAsWatched db uid vid now).2 := by
  unfold markVideoAsWatched
  dsimp only
  split
  · exact h
  next user huser =>
    split
    · exact h
    next ap hap =>
      split
      · exact h
      next plan hplan =>
        split
        · exact h
        have humem : user ∈ db.users := findBy_mem (findUser_findBy huser)
        have hres : WatchInv (checkAndResetDailyVideos db user now).2 :=
          watchInv_checkReset h
        have hfind0 := @findUser_checkReset _ _ now _ huser
        have h0mem : (checkAndResetDailyVideos db user now).1 ∈
            (checkAndResetDailyVideos db user now).2.users :=
          findBy_mem (findUser_findBy hfind0)
        split
        · exact hres
        split
        · exact hres
        next hquota hnew =>
          have hvids : (checkAndResetDailyVideos db user now).2.videos = db.videos :=
            checkReset_videos
          have h1 : WatchInv (((checkAndResetDailyVideos db user now).2.saveUser
              { (checkAndResetDailyVideos db user now).1 with
                dailyWatchedVideos :=
                  (checkAndResetDailyVideos db user now).1.dailyWatchedVideos ++ [vid],
                fullWatchedHistory :=
                  if vid ∈ (checkAndResetDailyVideos db user now).1.fullWatchedHistory then
                    (checkAndResetDailyVideos db user now).1.fullWatchedHistory
                  else (checkAndResetDailyVideos db user now).1.fullWatchedHistory ++ [vid],
                balance := (checkAndResetDailyVideos db user now).1.balance +
                  plan.rewardPerVideo }).addTxn
              { user := uid, amount := plan.rewardPerVideo, type := .daily_reward,
                description := "Recompensa por assistir vídeo.", referenceId := some vid }) := by
            refine watchState_replace ?_ hres
            intro v hv hvs
            rcases List.mem_append.1 hv with hv' | hv'
            · have hfull := hres _ h0mem v hv' hvs
              by_cases hvf : vid ∈ (checkAndResetDailyVideos db user now).1.fullWatchedHistory
              · rw [if_pos hvf]
                exact hfull
              · rw [if_neg hvf]
                exact List.mem_append_left _ hfull
            · have hvv : v = vid := by simpa using hv'
              subst hvv
              by_cases hvf : v ∈ (checkAndResetDailyVideos db user now).1.fullWatchedHistory
              · rw [if_pos hvf]
                exact hvf
              · rw [if_neg hvf]
                exact List.mem_append_right _ (List.mem_cons_self v [])
          exact watchInv_referralPost _ _ _ _ _ _ h1

lemma watchInv_getDailyVideos (db : DB) (uid now : ℕ) (sample : List ℕ → ℕ → List ℕ)
    (h : WatchInv db) : WatchInv (getDailyVideos db uid now sample).2 := by
  unfold getDailyVideos
  dsimp only
  split
  · exact h
  next user huser =>
    split
    · exact h
    next ap hap =>
      split
      · exact h
      next plan hplan =>
        split
        · exact h
        have humem : user ∈ db.users := findBy_mem (findUser_findBy huser)
        have hres : WatchInv (checkAndResetDailyVideos db user now).2 :=
          watchInv_checkReset h
        split
        · exact hres
        split
        · exact hres
        · exact hres

lemma watchInv_requestDeposit (db : DB) (uid did : ℕ) (amount : ℚ) (pm : String)
    (hp : Bool) (h : WatchInv db) : WatchInv (requestDeposit db uid did amount pm hp).2 := by
  unfold requestDeposit
  split
  · exact h
  split
  · exact h
  · exact h

lemma watchInv_requestWithdrawal (db : DB) (uid wid : ℕ) (amount : ℚ) (pm ph : String)
    (now : ℕ) (h : WatchInv db) :
    WatchInv (requestWithdrawal db uid wid amount pm ph now).2 := by
  unfold requestWithdrawal
  split
  · exact h
  next user huser =>
    split
    · exact h
    split
    · exact h
    split
    · exact h
    · exact h

lemma watchInv_approveDeposit (db : DB) (did : ℕ) (h : WatchInv db) :
    WatchInv (approveDeposit db did).2 := by
  unfold approveDeposit
  split
  · exact h
  next dep hdep =>
    split
    · exact h
    split
    · exact h
    next user huser =>
      have humem : user ∈ db.users := findBy_mem (findUser_findBy huser)
      exact watchState_replace (fun v hv hvs => h user humem v hv hvs) h

lemma watchInv_rejectDeposit (db : DB) (did : ℕ) (h : WatchInv db) :
    WatchInv (rejectDeposit db did).2 := by
  unfold rejectDeposit
  split
  · exact h
  next dep hdep =>
    split
    · exact h
    · exact h

lemma watchInv_approveWithdrawal (db : DB) (wid : ℕ) (h : WatchInv db) :
    WatchInv (approveWithdrawal db wid).2 := by
  unfold approveWithdrawal
  split
  · exact h
  next w hw =>
    split
    · exact h
    split
    · exact h
    next user huser =>
      split
      · exact h
      · have humem : user ∈ db.users := findBy_mem (findUser_findBy huser)
        exact watchState_replace (fun v hv hvs => h user humem v hv hvs) h

lemma watchInv_rejectWithdrawal (db : DB) (wid : ℕ) (h : WatchInv db) :
    WatchInv (rejectWithdrawal db wid).2 := by
  unfold rejectWithdrawal
  split
  · exact h
  next w hw =>
    split
    · exact h
    · exact h

lemma watchInv_manualBalanceUpdate (db : DB) (uid : ℕ) (amount : ℚ) (description : String)
    (h : WatchInv db) : WatchInv (manualBalanceUpdate db uid amount description).2 := by
  unfold manualBalanceUpdate
  dsimp only
  split
  · exact h
  next user huser =>
    split
    · exact h
    split
    · exact h
    · have humem : user ∈ db.users := findBy_mem (findUser_findBy huser)
      exact watchState_replace (fun v hv hvs => h user humem v hv hvs) h

lemma watchInv_createPlan (db : DB) (pid : ℕ) (name : String) (cost : ℚ)
    (lim dur : ℕ) (reward : ℚ) (h : WatchInv db) :
    WatchInv (createPlan db pid name cost lim dur reward).2 := h

lemma watchInv_uploadVideo (db : DB) (vid : ℕ)
    (hfresh : ∀ u ∈ db.users, vid ∉ u.dailyWatchedVideos)
    (h : WatchInv db) : WatchInv (uploadVideo db vid).2 := by
  intro w hw v hv hvs
  rcases List.mem_append.1 hvs with h' | h'
  · exact h w hw v hv h'
  · have hvv : v = vid := by simpa using h'
    subst hvv
    exact absurd hv (hfresh w hw)

lemma watchInv_deleteVideo (db : DB) (vid : ℕ) (h : WatchInv db) :
    WatchInv (deleteVideo db vid).2 := by
  unfold deleteVideo
  split
  · intro w hw v hv hvs
    obtain ⟨u, hu, rfl⟩ := List.mem_map.1 hw
    have hvv : v ∈ db.videos ∧ ¬ v = vid := by simpa using List.mem_filter.1 hvs
    have hfull : v ∈ u.fullWatchedHistory := h u hu v hv hvv.1
    exact List.mem_filter.2 ⟨hfull, by simpa using hvv.2⟩
  · exact h

lemma step_watchInv {a b : DB} (hs : Step a b) (h : WatchInv a) : WatchInv b := by
  cases hs with
  | register uid un em pw rc mc => exact watchInv_registerUser a uid un em pw rc mc h
  | buy uid pid now => exact watchInv_buyPlan a uid pid now h
  | watch uid vid now => exact watchInv_markWatched a uid vid now h
  | daily uid now sample => exact watchInv_getDailyVideos a uid now sample h
  | reqDeposit uid did amount pm hp => exact watchInv_requestDeposit a uid did amount pm hp h
  | reqWithdrawal uid wid amount pm ph now =>
      exact watchInv_requestWithdrawal a uid wid amount pm ph now h
  | appDeposit did => exact watchInv_approveDeposit a did h
  | rejDeposit did => exact watchInv_rejectDeposit a did h
  | appWithdrawal wid => exact watchInv_approveWithdrawal a wid h
  | rejWithdrawal wid => exact watchInv_rejectWithdrawal a wid h
  | manual uid amount description => exact watchInv_manualBalanceUpdate a uid amount description h
  | newPlan pid name cost lim dur reward => exact watchInv_createPlan a pid name cost lim dur reward h
  | newVideo vid hfresh => exact watchInv_uploadVideo a vid (fun u hu => (hfresh.2 u hu).1) h
  | delVideo vid => exact watchInv_deleteVideo a vid h

lemma reachable_watchInv {db : DB} (h : Reachable db) : WatchInv db := by
  unfold Reachable at h
  induction h with
  | refl =>
      intro u hu
      simp [DB.init] at hu
  | tail _ hstep ih => exact step_watchInv hstep ih

/-- Nonnegativity of all money-bearing quantities in the store: user balances,
deposit-request amounts, and plan prices and per-video rewards. -/
def MoneyInv (db : DB) : Prop :=
  (∀ u ∈ db.users, 0 ≤ u.balance) ∧
  (∀ d ∈ db.deposits, 0 ≤ d.amount) ∧
  (∀ p ∈ db.plans, 0 ≤ p.cost ∧ 0 ≤ p.rewardPerVideo)

lemma moneyUsers_replace {users : List User} {u' : User} (hb : 0 ≤ u'.balance)
    (h : ∀ u ∈ users, 0 ≤ u.balance) : ∀ u ∈ replaceBy User.id u' users, 0 ≤ u.balance := by
  intro w hw
  rcases mem_replaceBy hw with rfl | ⟨hwl, _⟩
  · exact hb
  · exact h w hwl

lemma moneyDeps_replace {deps : List Deposit} {d' : Deposit} (hd : 0 ≤ d'.amount)
    (h : ∀ d ∈ deps, 0 ≤ d.amount) : ∀ d ∈ replaceBy Deposit.id d' deps, 0 ≤ d.amount := by
  intro w hw
  rcases mem_replaceBy hw with rfl | ⟨hwl, _⟩
  · exact hd
  · exact h w hwl

lemma money_referralPost (db1 : DB) (rb : Option ℕ) (bonus : ℚ) (ty : TxType)
    (descr : String) (ref : Option ℕ) (hb : 0 ≤ bonus) (h : MoneyInv db1) :
    MoneyInv (referralPost db1 rb bonus ty descr ref) := by
  obtain ⟨h1, h2, h3⟩ := h
  unfold referralPost
  split
  · exact ⟨h1, h2, h3⟩
  split
  · exact ⟨h1, h2, h3⟩
  next referrer hreferrer =>
    have hrb : 0 ≤ referrer.balance := h1 referrer (findBy_mem (findUser_findBy hreferrer))
    exact ⟨moneyUsers_replace (add_nonneg hrb hb) h1, h2, h3⟩

lemma money_registerUser (db : DB) (uid : ℕ) (un em pw : String)
    (rc : Option String) (mc : String) (h : MoneyInv db) :
    MoneyInv (registerUser db uid un em pw rc mc).2 := by
  obtain ⟨h1, h2, h3⟩ := h
  unfold registerUser
  split
  · exact ⟨h1, h2, h3⟩
  split
  · exact ⟨h1, h2, h3⟩
  split
  · exact ⟨h1, h2, h3⟩
  · refine ⟨?_, h2, h3⟩
    intro w hw
    rcases List.mem_append.1 hw with hw' | hw'
    · exact h1 w hw'
    · have hwu := by simpa using hw'
      subst hwu
      norm_num

lemma money_buyPlan (db : DB) (uid pid now : ℕ) (h : MoneyInv db) :
    MoneyInv (buyPlan db uid pid now).2 := by
  obtain ⟨h1, h2, h3⟩ := h
  unfold buyPlan
  dsimp only
  split
  · exact ⟨h1, h2, h3⟩
  · exact ⟨h1, h2, h3⟩
  next plan user hplan huser =>
    split
    · exact ⟨h1, h2, h3⟩
    split
    · exact ⟨h1, h2, h3⟩
    split
    · exact ⟨h1, h2, h3⟩
    next hbal =>
      have hpmem : plan ∈ db.plans := findBy_mem hplan
      have hcost : 0 ≤ plan.cost := (h3 plan hpmem).1
      have husers1 : ∀ u ∈ replaceBy User.id
          { user with
            balance := user.balance - plan.cost,
            activePlan := some
              { planId := plan.id, name := plan.name, activationDate := now,
                expiryDate := now + plan.durationInDays * dayLength } } db.users,
          0 ≤ u.balance := by
        refine moneyUsers_replace ?_ h1
        have hle : plan.cost ≤ user.balance := not_lt.1 hbal
        exact sub_nonneg.2 hle
      refine money_referralPost _ _ _ _ _ _ (by positivity) ⟨husers1, h2, h3⟩

lemma money_markWatched (db : DB) (uid vid now : ℕ) (h : MoneyInv db) :
    MoneyInv (markVideoAsWatched db uid vid now).2 := by
  obtain ⟨h1, h2, h3⟩ := h
  unfold markVideoAsWatched
  dsimp only
  split
  · exact ⟨h1, h2, h3⟩
  next user huser =>
    split
    · exact ⟨h1, h2, h3⟩
    next ap hap =>
      split
      · exact ⟨h1, h2, h3⟩
      next plan hplan =>
        split
        · exact ⟨h1, h2, h3⟩
        have hpmem : plan ∈ db.plans := findBy_mem hplan
        have hr : 0 ≤ plan.rewardPerVideo := (h3 plan hpmem).2
        have husers0 : ∀ u ∈ (checkAndResetDailyVideos db user now).2.users, 0 ≤ u.balance := by
          unfold checkAndResetDailyVideos
          split
          · exact moneyUsers_replace (h1 user (findBy_mem (findUser_findBy huser))) h1
          · exact h1
        have hdeps0 : ∀ d ∈ (checkAndResetDailyVideos db user now).2.deposits, 0 ≤ d.amount := by
          unfold checkAndResetDailyVideos
          split
          · exact h2
          · exact h2
        have hplans0 : ∀ p ∈ (checkAndResetDailyVideos db user now).2.plans,
            0 ≤ p.cost ∧ 0 ≤ p.rewardPerVideo := by
          unfold checkAndResetDailyVideos
          split
          · exact h3
          · exact h3
        have hfind0 := @findUser_checkReset _ _ now _ huser
        have hb0 : 0 ≤ (checkAndResetDailyVideos db user now).1.balance :=
          husers0 _ (findBy_mem (findUser_findBy hfind0))
        split
        · exact ⟨husers0, hdeps0, hplans0⟩
        split
        · exact ⟨husers0, hdeps0, hplans0⟩
        next hquota hnew =>
          have husers1 : ∀ u ∈ replaceBy User.id
              { (checkAndResetDailyVideos db user now).1 with
                dailyWatchedVideos :=
                  (checkAndResetDailyVideos db user now).1.dailyWatchedVideos ++ [vid],
                fullWatchedHistory :=
                  if vid ∈ (checkAndResetDailyVideos db user now).1.fullWatchedHistory then
                    (checkAndResetDailyVideos db user now).1.fullWatchedHistory
                  else (checkAndResetDailyVideos db user now).1.fullWatchedHistory ++ [vid],
                balance := (checkAndResetDailyVideos db user now).1.balance +
                  plan.rewardPerVideo } (checkAndResetDailyVideos db user now).2.users,
              0 ≤ u.balance :=
            moneyUsers_replace (add_nonneg hb0 hr) husers0
          exact money_referralPost _ _ _ _ _ _ (mul_nonneg hr (by norm_num)) ⟨husers1, hdeps0, hplans0⟩

lemma money_getDailyVideos (db : DB) (uid now : ℕ) (sample : List ℕ → ℕ → List ℕ)
    (h : MoneyInv db) : MoneyInv (getDailyVideos db uid now sample).2 := by
  obtain ⟨h1, h2, h3⟩ := h
  unfold getDailyVideos
  dsimp only
  split
  · exact ⟨h1, h2, h3⟩
  next user huser =>
    split
    · exact ⟨h1, h2, h3⟩
    next ap hap =>
      split
      · exact ⟨h1, h2, h3⟩
      next plan hplan =>
        split
        · exact ⟨h1, h2, h3⟩
        have hres : MoneyInv (checkAndResetDailyVideos db user now).2 := by
          unfold checkAndResetDailyVideos
          split
          · exact ⟨moneyUsers_replace (h1 user (findBy_mem (findUser_findBy huser))) h1, h2, h3⟩
          · exact ⟨h1, h2, h3⟩
        split
        · exact hres
        split
        · exact hres
        · exact hres

lemma money_requestDeposit (db : DB) (uid did : ℕ) (amount : ℚ) (pm : String)
    (hp : Bool) (hpos : 0 ≤ amount) (h : MoneyInv db) :
    MoneyInv (requestDeposit db uid did amount pm hp).2 := by
  obtain ⟨h1, h2, h3⟩ := h
  unfold requestDeposit
  split
  · exact ⟨h1, h2, h3⟩
  split
  · exact ⟨h1, h2, h3⟩
  · refine ⟨h1, ?_, h3⟩
    intro d hd
    rcases List.mem_append.1 hd with hd' | hd'
    · exact h2 d hd'
    · have hdu := by simpa using hd'
      subst hdu
      exact hpos

lemma money_requestWithdrawal (db : DB) (uid wid : ℕ) (amount : ℚ) (pm ph : String)
    (now : ℕ) (h : MoneyInv db) :
    MoneyInv (requestWithdrawal db uid wid amount pm ph now).2 := by
  obtain ⟨h1, h2, h3⟩ := h
  unfold requestWithdrawal
  split
  · exact ⟨h1, h2, h3⟩
  next user huser =>
    split
    · exact ⟨h1, h2, h3⟩
    split
    · exact ⟨h1, h2, h3⟩
    split
    · exact ⟨h1, h2, h3⟩
    · exact ⟨h1, h2, h3⟩

lemma money_approveDeposit (db : DB) (did : ℕ) (h : MoneyInv db) :
    MoneyInv (approveDeposit db did).2 := by
  obtain ⟨h1, h2, h3⟩ := h
  unfold approveDeposit
  split
  · exact ⟨h1, h2, h3⟩
  next dep hdep =>
    split
    · exact ⟨h1, h2, h3⟩
    split
    · exact ⟨h1, h2, h3⟩
    next user huser =>
      have hdmem : dep ∈ db.deposits := findBy_mem hdep
      have hda : 0 ≤ dep.amount := h2 dep hdmem
      refine ⟨?_, ?_, h3⟩
      · exact moneyUsers_replace
          (add_nonneg (h1 user (findBy_mem (findUser_findBy huser))) hda) h1
      · exact moneyDeps_replace hda h2

lemma money_rejectDeposit (db : DB) (did : ℕ) (h : MoneyInv db) :
    MoneyInv (rejectDeposit db did).2 := by
  obtain ⟨h1, h2, h3⟩ := h
  unfold rejectDeposit
  split
  · exact ⟨h1, h2, h3⟩
  next dep hdep =>
    split
    · exact ⟨h1, h2, h3⟩
    · exact ⟨h1, moneyDeps_replace (h2 dep (findBy_mem hdep)) h2, h3⟩

lemma money_approveWithdrawal (db : DB) (wid : ℕ) (h : MoneyInv db) :
    MoneyInv (approveWithdrawal db wid).2 := by
  obtain ⟨h1, h2, h3⟩ := h
  unfold approveWithdrawal
  split
  · exact ⟨h1, h2, h3⟩
  next w hw =>
    split
    · exact ⟨h1, h2, h3⟩
    split
    · exact ⟨h1, h2, h3⟩
    next user huser =>
      split
      · exact ⟨h1, h2, h3⟩
      next hbal =>
        refine ⟨?_, h2, h3⟩
        refine moneyUsers_replace ?_ h1
        exact sub_nonneg.2 (not_lt.1 hbal)

lemma money_rejectWithdrawal (db : DB) (wid : ℕ) (h : MoneyInv db) :
    MoneyInv (rejectWithdrawal db wid).2 := by
  obtain ⟨h1, h2, h3⟩ := h
  unfold rejectWithdrawal
  split
  · exact ⟨h1, h2, h3⟩
  next w hw =>
    split
    · exact ⟨h1, h2, h3⟩
    · exact ⟨h1, h2, h3⟩

lemma money_manualBalanceUpdate (db : DB) (uid : ℕ) (amount : ℚ) (description : String)
    (h : MoneyInv db) : MoneyInv (manualBalanceUpdate db uid amount description).2 := by
  obtain ⟨h1, h2, h3⟩ := h
  unfold manualBalanceUpdate
  dsimp only
  split
  · exact ⟨h1, h2, h3⟩
  next user huser =>
    split
    · exact ⟨h1, h2, h3⟩
    split
    · exact ⟨h1, h2, h3⟩
    next hneg =>
      exact ⟨moneyUsers_replace (not_lt.1 hneg) h1, h2, h3⟩

lemma money_createPlan (db : DB) (pid : ℕ) (name : String) (cost : ℚ)
    (lim dur : ℕ) (reward : ℚ) (hc : 0 ≤ cost) (hr : 0 ≤ reward) (h : MoneyInv db) :
    MoneyInv (createPlan db pid name cost lim dur reward).2 := by
  obtain ⟨h1, h2, h3⟩ := h
  refine ⟨h1, h2, ?_⟩
  intro p hp
  rcases List.mem_append.1 hp with hp' | hp'
  · exact h3 p hp'
  · have hpu := by simpa using hp'
    subst hpu
    exact ⟨hc, hr⟩

lemma money_uploadVideo (db : DB) (vid : ℕ) (h : MoneyInv db) :
    MoneyInv (uploadVideo db vid).2 := h

lemma money_deleteVideo (db : DB) (vid : ℕ) (h : MoneyInv db) :
    MoneyInv (deleteVideo db vid).2 := by
  obtain ⟨h1, h2, h3⟩ := h
  unfold deleteVideo
  split
  · refine ⟨?_, h2, h3⟩
    intro w hw
    obtain ⟨u, hu, rfl⟩ := List.mem_map.1 hw
    exact h1 u hu
  · exact ⟨h1, h2, h3⟩

/-- The user already reset today: the stored reset stamp is not before the
start of the current business day (`checkAndResetDailyVideos` is a no-op). -/
def sameDay (user : User) (now : ℕ) : Prop :=
  ∃ t0, user.lastVideoReset = some t0 ∧ startOfDay now ≤ t0

lemma startOfDay_le (t : ℕ) : startOfDay t ≤ t := by
  unfold startOfDay
  calc dayLength * (t / dayLength) = t / dayLength * dayLength := Nat.mul_comm _ _
    _ ≤ t := Nat.div_mul_le_self t dayLength

lemma checkReset_noop {db : DB} {user : User} {now : ℕ} (h : sameDay user now) :
    checkAndResetDailyVideos db user now = (user, db) := by
  obtain ⟨t0, ht0, hle⟩ := h
  unfold checkAndResetDailyVideos
  rw [ht0]
  simp [not_lt.2 hle]

lemma checkReset_sameDay {db : DB} {user : User} {now : ℕ} :
    sameDay (checkAndResetDailyVideos db user now).1 now := by
  unfold checkAndResetDailyVideos
  split
  · exact ⟨now, rfl, startOfDay_le now⟩
  next hcond =>
    cases hlvr : user.lastVideoReset with
    | none =>
        rw [hlvr] at hcond
        simp at hcond
    | some t =>
        rw [hlvr] at hcond
        simp only [decide_eq_true_eq] at hcond
        exact ⟨t, hlvr, not_lt.1 hcond⟩

lemma checkReset_activePlan {db : DB} {user : User} {now : ℕ} :
    (checkAndResetDailyVideos db user now).1.activePlan = user.activePlan := by
  unfold checkAndResetDailyVideos
  split <;> rfl

lemma checkReset_referredBy {db : DB} {user : User} {now : ℕ} :
    (checkAndResetDailyVideos db user now).1.referredBy = user.referredBy := by
  unfold checkAndResetDailyVideos
  split <;> rfl

lemma checkReset_username {db : DB} {user : User} {now : ℕ} :
    (checkAndResetDailyVideos db user now).1.username = user.username := by
  unfold checkAndResetDailyVideos
  split <;> rfl

lemma checkReset_deposits {db : DB} {user : User} {now : ℕ} :
    (checkAndResetDailyVideos db user now).2.deposits = db.deposits := by
  unfold checkAndResetDailyVideos
  split <;> rfl

lemma checkReset_withdrawals {db : DB} {user : User} {now : ℕ} :
    (checkAndResetDailyVideos db user now).2.withdrawals = db.withdrawals := by
  unfold checkAndResetDailyVideos
  split <;> rfl

lemma findUser_saveUser_self {db : DB} {uid : ℕ} {u u' : User}
    (hfind : db.findUser uid = some u) (hid : u'.id = uid) :
    (db.saveUser u').findUser uid = some u' := by
  have h1 : findBy User.id (User.id u') db.users = some u := by
    show findBy User.id u'.id db.users = some u
    rw [hid]
    exact hfind
  have h2 := findBy_replaceBy_self h1
  show findBy User.id uid (replaceBy User.id u' db.users) = some u'
  rw [← hid]
  exact h2

lemma findUser_saveUser_ne {db : DB} {k : ℕ} {u' : User} (hne : u'.id ≠ k) :
    (db.saveUser u').findUser k = db.findUser k :=
  findBy_replaceBy_ne hne

lemma findUser_addTxn (db : DB) (t : Transaction) (k : ℕ) :
    (db.addTxn t).findUser k = db.findUser k := rfl

lemma findPlan_congr {a b : DB} (h : a.plans = b.plans) (pid : ℕ) :
    a.findPlan pid = b.findPlan pid := by
  unfold DB.findPlan
  rw [h]

/-- Number of ledger entries for `uid` of a given kind. -/
def countTx (txns : List Transaction) (uid : ℕ) (ty : TxType) : ℕ :=
  (txns.filter (fun t => decide (t.user = uid ∧ t.type = ty))).length

lemma countTx_append (txns : List Transaction) (t : Transaction) (uid : ℕ) (ty : TxType) :
    countTx (txns ++ [t]) uid ty =
      countTx txns uid ty + (if t.user = uid ∧ t.type = ty then 1 else 0) := by
  by_cases h : t.user = uid ∧ t.type = ty
  · simp [countTx, List.filter_append, h]
  · simp [countTx, List.filter_append, h]

lemma referralPost_plans (db1 : DB) (rb : Option ℕ) (bonus : ℚ) (ty : TxType)
    (descr : String) (ref : Option ℕ) :
    (referralPost db1 rb bonus ty descr ref).plans = db1.plans := by
  unfold referralPost
  split
  · rfl
  split <;> rfl

lemma referralPost_videos (db1 : DB) (rb : Option ℕ) (bonus : ℚ) (ty : TxType)
    (descr : String) (ref : Option ℕ) :
    (referralPost db1 rb bonus ty descr ref).videos = db1.videos := by
  unfold referralPost
  split
  · rfl
  split <;> rfl

lemma referralPost_deposits (db1 : DB) (rb : Option ℕ) (bonus : ℚ) (ty : TxType)
    (descr : String) (ref : Option ℕ) :
    (referralPost db1 rb bonus ty descr ref).deposits = db1.deposits := by
  unfold referralPost
  split
  · rfl
  split <;> rfl

lemma referralPost_withdrawals (db1 : DB) (rb : Option ℕ) (bonus : ℚ) (ty : TxType)
    (descr : String) (ref : Option ℕ) :
    (referralPost db1 rb bonus ty descr ref).withdrawals = db1.withdrawals := by
  unfold referralPost
  split
  · rfl
  split <;> rfl

lemma referralPost_countTx (db1 : DB) (rb : Option ℕ) (bonus : ℚ) (ty : TxType)
    (descr : String) (ref : Option ℕ) (uid : ℕ) (ty' : TxType) (hne : ty ≠ ty') :
    countTx (referralPost db1 rb bonus ty descr ref).txns uid ty' =
      countTx db1.txns uid ty' := by
  unfold referralPost
  split
  · rfl
  split
  · rfl
  · rw [addTxn_txns, countTx_append]
    simp [hne, saveUser_txns]

lemma referralPost_findUser {db1 : DB} {uid : ℕ} {u1 : User} (rb : Option ℕ) (bonus : ℚ)
    (ty : TxType) (descr : String) (ref : Option ℕ)
    (hfu : db1.findUser uid = some u1) :
    ∃ u', (referralPost db1 rb bonus ty descr ref).findUser uid = some u' ∧
      u'.id = u1.id ∧ u'.username = u1.username ∧ u'.referredBy = u1.referredBy ∧
      u'.activePlan = u1.activePlan ∧
      u'.dailyWatchedVideos = u1.dailyWatchedVideos ∧
      u'.lastVideoReset = u1.lastVideoReset ∧
      u'.fullWatchedHistory = u1.fullWatchedHistory ∧
      u'.balance = u1.balance + (if rb = some uid then bonus else 0) := by
  unfold referralPost
  cases rb with
  | none =>
      dsimp only
      exact ⟨u1, hfu, rfl, rfl, rfl, rfl, rfl, rfl, rfl, by simp⟩
  | some rid =>
    dsimp only
    cases hrr : db1.findUser rid with
    | none =>
        dsimp only
        refine ⟨u1, hfu, rfl, rfl, rfl, rfl, rfl, rfl, rfl, ?_⟩
        by_cases hru : rid = uid
        · subst hru
          rw [hrr] at hfu
          exact absurd hfu (by simp)
        · rw [if_neg (by simpa using hru), add_zero]
    | some referrer =>
        dsimp only
        by_cases hru : rid = uid
        · subst hru
          have hrefeq : referrer = u1 := Option.some.inj (hrr.symm.trans hfu)
          subst hrefeq
          refine ⟨{ referrer with balance := referrer.balance + bonus }, ?_, rfl, rfl, rfl,
            rfl, rfl, rfl, rfl, ?_⟩
          · rw [findUser_addTxn]
            have hid1 : referrer.id = rid := findUser_key hrr
            exact @findUser_saveUser_self _ _ _
              { referrer with balance := referrer.balance + bonus } hfu hid1
          · rw [if_pos rfl]
        · refine ⟨u1, ?_, rfl, rfl, rfl, rfl, rfl, rfl, rfl, ?_⟩
          · rw [findUser_addTxn]
            rw [findUser_saveUser_ne ?_]
            · exact hfu
            · rw [findUser_key hrr]
              exact hru
          · rw [if_neg (by simpa using hru), add_zero]

lemma markWatched_success_core {db : DB} {uid vid now : ℕ} {user : User} {ap : ActivePlan}
    {plan : Plan}
    (huser : db.findUser uid = some user)
    (hap : user.activePlan = some ap)
    (hplan : db.findPlan ap.planId = some plan)
    (hexp : ¬ ap.expiryDate < now)
    (hquota : (checkAndResetDailyVideos db user now).1.dailyWatchedVideos.length <
      plan.dailyVideoLimit)
    (hnew : vid ∉ (checkAndResetDailyVideos db user now).1.dailyWatchedVideos) :
    (markVideoAsWatched db uid vid now).1 = .ok () ∧
    ∃ u', (markVideoAsWatched db uid vid now).2.findUser uid = some u' ∧
      u'.id = uid ∧
      u'.dailyWatchedVideos =
        (checkAndResetDailyVideos db user now).1.dailyWatchedVideos ++ [vid] ∧
      u'.activePlan = user.activePlan ∧
      sameDay u' now ∧
      u'.lastVideoReset = (checkAndResetDailyVideos db user now).1.lastVideoReset ∧
      u'.referredBy = user.referredBy ∧
      u'.username = user.username ∧
      (markVideoAsWatched db uid vid now).2.plans = db.plans ∧
      countTx (markVideoAsWatched db uid vid now).2.txns uid .daily_reward =
        countTx db.txns uid .daily_reward + 1 := by
  have hkey : user.id = uid := findUser_key huser
  have hfind0 := @findUser_checkReset _ _ now _ huser
  have hid0 : (checkAndResetDailyVideos db user now).1.id = uid := by
    rw [checkReset_id, hkey]
  unfold markVideoAsWatched
  rw [huser]
  dsimp only
  rw [hap]
  dsimp only
  rw [hplan]
  dsimp only
  rw [if_neg hexp, if_neg (not_le.2 hquota), if_neg hnew]
  refine ⟨rfl, ?_⟩
  have hfu1 : (((checkAndResetDailyVideos db user now).2.saveUser
      { (checkAndResetDailyVideos db user now).1 with
        dailyWatchedVideos :=
          (checkAndResetDailyVideos db user now).1.dailyWatchedVideos ++ [vid],
        fullWatchedHistory :=
          if vid ∈ (checkAndResetDailyVideos db user now).1.fullWatchedHistory then
            (checkAndResetDailyVideos db user now).1.fullWatchedHistory
          else (checkAndResetDailyVideos db user now).1.fullWatchedHistory ++ [vid],
        balance := (checkAndResetDailyVideos db user now).1.balance +
          plan.rewardPerVideo }).addTxn
      { user := uid, amount := plan.rewardPerVideo, type := .daily_reward,
        description := "Recompensa por assistir vídeo.", referenceId := some vid }).findUser uid =
      some { (checkAndResetDailyVideos db user now).1 with
        dailyWatchedVideos :=
          (checkAndResetDailyVideos db user now).1.dailyWatchedVideos ++ [vid],
        fullWatchedHistory :=
          if vid ∈ (checkAndResetDailyVideos db user now).1.fullWatchedHistory then
            (checkAndResetDailyVideos db user now).1.fullWatchedHistory
          else (checkAndResetDailyVideos db user now).1.fullWatchedHistory ++ [vid],
        balance := (checkAndResetDailyVideos db user now).1.balance +
          plan.rewardPerVideo } := by
    rw [findUser_addTxn]
    exact findUser_saveUser_self hfind0 hid0
  obtain ⟨u', hfu', hids, husn, hrb', hap', hdw, hlvr, hfwh, hbal⟩ :=
    referralPost_findUser _ _ _ _ _ hfu1
  dsimp only at hids husn hrb' hap' hdw hlvr hfwh
  refine ⟨u', hfu', ?_, ?_, ?_, ?_, ?_, ?_, ?_, ?_, ?_⟩
  · rw [hids]
    exact hid0
  · exact hdw
  · rw [hap', checkReset_activePlan]
    exact hap
  · obtain ⟨t0, ht0, hle⟩ := @checkReset_sameDay db user now
    refine ⟨t0, ?_, hle⟩
    rw [hlvr]
    exact ht0
  · exact hlvr
  · rw [hrb']
    exact checkReset_referredBy
  · rw [husn]
    exact checkReset_username
  · rw [referralPost_plans]
    show (checkAndResetDailyVideos db user now).2.plans = db.plans
    exact checkReset_plans
  · rw [referralPost_countTx _ _ _ _ _ _ _ _ (by simp)]
    rw [addTxn_txns, saveUser_txns, countTx_append, checkReset_txns]
    simp

lemma markWatched_quota_err {db : DB} {uid vid now : ℕ} {user : User} {ap : ActivePlan}
    {plan : Plan}
    (huser : db.findUser uid = some user)
    (hap : user.activePlan = some ap)
    (hplan : db.findPlan ap.planId = some plan)
    (hexp : ¬ ap.expiryDate < now)
    (hquota : plan.dailyVideoLimit ≤
      (checkAndResetDailyVideos db user now).1.dailyWatchedVideos.length) :
    markVideoAsWatched db uid vid now =
      (.error .quotaExhausted, (checkAndResetDailyVideos db user now).2) := by
  unfold markVideoAsWatched
  rw [huser]
  dsimp only
  rw [hap]
  dsimp only
  rw [hplan]
  dsimp only
  rw [if_neg hexp, if_pos hquota]

lemma markWatched_already_err {db : DB} {uid vid now : ℕ} {user : User} {ap : ActivePlan}
    {plan : Plan}
    (huser : db.findUser uid = some user)
    (hap : user.activePlan = some ap)
    (hplan : db.findPlan ap.planId = some plan)
    (hexp : ¬ ap.expiryDate < now)
    (hquota : ¬ plan.dailyVideoLimit ≤
      (checkAndResetDailyVideos db user now).1.dailyWatchedVideos.length)
    (hold : vid ∈ (checkAndResetDailyVideos db user now).1.dailyWatchedVideos) :
    markVideoAsWatched db uid vid now =
      (.error .alreadyCredited, (checkAndResetDailyVideos db user now).2) := by
  unfold markVideoAsWatched
  rw [huser]
  dsimp only
  rw [hap]
  dsimp only
  rw [hplan]
  dsimp only
  rw [if_neg hexp, if_neg hquota, if_pos hold]

lemma checkReset_trigger {db : DB} {user : User} {now : ℕ} {t0 : ℕ}
    (h : user.lastVideoReset = some t0) (hlt : t0 < startOfDay now) :
    checkAndResetDailyVideos db user now =
      ({ user with dailyWatchedVideos := [], lastVideoReset := some now },
        db.saveUser { user with dailyWatchedVideos := [], lastVideoReset := some now }) := by
  unfold checkAndResetDailyVideos
  rw [h]
  simp [hlt]

/-- Iterated `markVideoAsWatched` over a list of video ids at one instant,
keeping only the persisted database. -/
def runWatch (db : DB) (uid : ℕ) (now : ℕ) : List ℕ → DB
  | [] => db
  | v :: vs => runWatch (markVideoAsWatched db uid v now).2 uid now vs

/-- Every call of the iteration reports success. -/
def watchAllOk (db : DB) (uid : ℕ) (now : ℕ) : List ℕ → Prop
  | [] => True
  | v :: vs => (markVideoAsWatched db uid v now).1 = .ok () ∧
      watchAllOk (markVideoAsWatched db uid v now).2 uid now vs

lemma watch_run {uid now : ℕ} {ap : ActivePlan} {plan : Plan} (vids : List ℕ) :
    ∀ (db : DB) (user : User),
      db.findUser uid = some user →
      user.activePlan = some ap →
      db.findPlan ap.planId = some plan →
      ¬ ap.expiryDate < now →
      sameDay user now →
      (∀ v ∈ vids, v ∉ user.dailyWatchedVideos) →
      vids.Nodup →
      user.dailyWatchedVideos.length + vids.length ≤ plan.dailyVideoLimit →
      watchAllOk db uid now vids ∧
      ∃ u', (runWatch db uid now vids).findUser uid = some u' ∧
        u'.activePlan = user.activePlan ∧
        sameDay u' now ∧
        u'.lastVideoReset = user.lastVideoReset ∧
        u'.dailyWatchedVideos = user.dailyWatchedVideos ++ vids ∧
        (runWatch db uid now vids).plans = db.plans := by
  induction vids with
  | nil =>
      intro db user hfu hap hplan hexp hday hnotin hnodup hlen
      exact ⟨trivial, user, hfu, rfl, hday, rfl, by simp, rfl⟩
  | cons v vs ih =>
      intro db user hfu hap hplan hexp hday hnotin hnodup hlen
      have hrw := @checkReset_noop db user now hday
      have hq : (checkAndResetDailyVideos db user now).1.dailyWatchedVideos.length <
          plan.dailyVideoLimit := by
        rw [hrw]
        dsimp only
        simp only [List.length_cons] at hlen
        omega
      have hn : v ∉ (checkAndResetDailyVideos db user now).1.dailyWatchedVideos := by
        rw [hrw]
        exact hnotin v (List.mem_cons_self v vs)
      obtain ⟨hok1, u1, hfu1, hid1, hdw1, hap1, hday1, hlvr1, hrb1, husn1, hplans1, hcount1⟩ :=
        markWatched_success_core hfu hap hplan hexp hq hn
      rw [hrw] at hdw1 hlvr1
      dsimp only at hdw1 hlvr1
      have hap1' : u1.activePlan = some ap := hap1.trans hap
      have hplan1 : (markVideoAsWatched db uid v now).2.findPlan ap.planId = some plan := by
        rw [findPlan_congr hplans1]
        exact hplan
      have hnotin1 : ∀ w ∈ vs, w ∉ u1.dailyWatchedVideos := by
        intro w hw
        rw [hdw1]
        intro hmem
        rcases List.mem_append.1 hmem with hmem' | hmem'
        · exact hnotin w (List.mem_cons_of_mem v hw) hmem'
        · have : w = v := by simpa using hmem'
          subst this
          exact (List.nodup_cons.1 hnodup).1 hw
      have hlen1 : u1.dailyWatchedVideos.length + vs.length ≤ plan.dailyVideoLimit := by
        rw [hdw1]
        simp only [List.length_append, List.length_singleton, List.length_cons,
          List.length_nil] at hlen ⊢
        omega
      obtain ⟨hokrest, u2, hfu2, hap2, hday2, hlvr2, hdw2, hplans2⟩ :=
        ih (markVideoAsWatched db uid v now).2 u1 hfu1 hap1' hplan1 hexp hday1 hnotin1
          (List.nodup_cons.1 hnodup).2 hlen1
      refine ⟨⟨hok1, hokrest⟩, u2, hfu2, hap2.trans hap1, hday2, ?_, ?_, ?_⟩
      · rw [hlvr2, hlvr1]
      · rw [hdw2, hdw1, List.append_assoc]
        rfl
      · show (runWatch (markVideoAsWatched db uid v now).2 uid now vs).plans = db.plans
        rw [hplans2]
        exact hplans1

lemma referralPost_none (db1 : DB) (bonus : ℚ) (ty : TxType) (descr : String)
    (ref : Option ℕ) : referralPost db1 none bonus ty descr ref = db1 := rfl

lemma referralPost_missing {db1 : DB} {rid : ℕ} (bonus : ℚ) (ty : TxType) (descr : String)
    (ref : Option ℕ) (h : db1.findUser rid = none) :
    referralPost db1 (some rid) bonus ty descr ref = db1 := by
  unfold referralPost
  dsimp only
  rw [h]

lemma referralPost_bonus {db1 : DB} {rid : ℕ} {refUser : User} (bonus : ℚ) (ty : TxType)
    (descr : String) (ref : Option ℕ) (h : db1.findUser rid = some refUser) :
    (referralPost db1 (some rid) bonus ty descr ref).findUser rid =
      some { refUser with balance := refUser.balance + bonus } ∧
    countTx (referralPost db1 (some rid) bonus ty descr ref).txns rid ty =
      countTx db1.txns rid ty + 1 := by
  unfold referralPost
  dsimp only
  rw [h]
  dsimp only
  constructor
  · rw [findUser_addTxn]
    have hid1 : refUser.id = rid := findUser_key h
    exact @findUser_saveUser_self _ _ _
      { refUser with balance := refUser.balance + bonus } h hid1
  · rw [addTxn_txns, saveUser_txns, countTx_append, if_pos ⟨rfl, rfl⟩]

lemma findUser_checkReset_other {db : DB} {user : User} {now : ℕ} {k : ℕ}
    (hne : user.id ≠ k) :
    (checkAndResetDailyVideos db user now).2.findUser k = db.findUser k := by
  unfold checkAndResetDailyVideos
  split
  · exact findUser_saveUser_ne hne
  · rfl

lemma buyPlan_success_core {db : DB} {uid pid now : ℕ} {user : User} {plan : Plan}
    (hplan : db.findPlan pid = some plan)
    (huser : db.findUser uid = some user)
    (hact : plan.isActive = true)
    (hnoplan : hasUnexpiredPlan user now = false)
    (hbal : ¬ user.balance < plan.cost) :
    (buyPlan db uid pid now).1 = .ok () ∧
    ∃ u', (buyPlan db uid pid now).2.findUser uid = some u' ∧
      u'.id = uid ∧
      u'.activePlan = some
        { planId := plan.id, name := plan.name, activationDate := now,
          expiryDate := now + plan.durationInDays * dayLength } ∧
      u'.dailyWatchedVideos = user.dailyWatchedVideos ∧
      u'.fullWatchedHistory = user.fullWatchedHistory ∧
      u'.lastVideoReset = user.lastVideoReset ∧
      u'.balance = user.balance - plan.cost +
        (if user.referredBy = some uid then plan.cost * (1/10 : ℚ) else 0) ∧
      countTx (buyPlan db uid pid now).2.txns uid .plan_purchase =
        countTx db.txns uid .plan_purchase + 1 := by
  have hkey : user.id = uid := findUser_key huser
  have hc1 : ¬ ¬ plan.isActive = true := not_not_intro hact
  have hc2 : ¬ hasUnexpiredPlan user now = true := by
    rw [hnoplan]
    exact Bool.false_ne_true
  unfold buyPlan
  rw [hplan, huser]
  dsimp only
  rw [if_neg hc1, if_neg hc2, if_neg hbal]
  have hfu1 : ((db.saveUser
      { user with
        balance := user.balance - plan.cost,
        activePlan := some
          { planId := plan.id, name := plan.name, activationDate := now,
            expiryDate := now + plan.durationInDays * dayLength } }).addTxn
      { user := uid, amount := -plan.cost, type := .plan_purchase,
        description := "Compra do plano " ++ plan.name }).findUser uid =
      some { user with
        balance := user.balance - plan.cost,
        activePlan := some
          { planId := plan.id, name := plan.name, activationDate := now,
            expiryDate := now + plan.durationInDays * dayLength } } := by
    rw [findUser_addTxn]
    exact @findUser_saveUser_self _ _ _
      { user with
        balance := user.balance - plan.cost,
        activePlan := some
          { planId := plan.id, name := plan.name, activationDate := now,
            expiryDate := now + plan.durationInDays * dayLength } } huser hkey
  refine ⟨rfl, ?_⟩
  obtain ⟨u', hfu', hids, husn, hrb', hap', hdw, hlvr, hfwh, hbal'⟩ :=
    referralPost_findUser _ _ _ _ _ hfu1
  dsimp only at hids husn hrb' hap' hdw hlvr hfwh hbal'
  refine ⟨u', hfu', hids.trans hkey, hap', hdw, hfwh, hlvr, ?_, ?_⟩
  · rw [hbal']
  · rw [referralPost_countTx _ _ _ _ _ _ _ _ (by simp)]
    rw [addTxn_txns, saveUser_txns, countTx_append]
    simp

lemma buyPlan_referral {db : DB} {uid pid now rid : ℕ} {user refUser : User} {plan : Plan}
    (hplan : db.findPlan pid = some plan)
    (huser : db.findUser uid = some user)
    (hact : plan.isActive = true)
    (hnoplan : hasUnexpiredPlan user now = false)
    (hbal : ¬ user.balance < plan.cost)
    (hrb : user.referredBy = some rid)
    (hru : rid ≠ uid)
    (href : db.findUser rid = some refUser) :
    (buyPlan db uid pid now).1 = .ok () ∧
    (buyPlan db uid pid now).2.findUser rid =
      some { refUser with balance := refUser.balance + plan.cost * (1/10 : ℚ) } ∧
    countTx (buyPlan db uid pid now).2.txns rid .referral_plan =
      countTx db.txns rid .referral_plan + 1 := by
  have hkey : user.id = uid := findUser_key huser
  have hc1 : ¬ ¬ plan.isActive = true := not_not_intro hact
  have hc2 : ¬ hasUnexpiredPlan user now = true := by
    rw [hnoplan]
    exact Bool.false_ne_true
  unfold buyPlan
  rw [hplan, huser]
  dsimp only
  rw [if_neg hc1, if_neg hc2, if_neg hbal, hrb]
  have href1 : ((db.saveUser
      { user with
        referredBy := some rid,
        balance := user.balance - plan.cost,
        activePlan := some
          { planId := plan.id, name := plan.name, activationDate := now,
            expiryDate := now + plan.durationInDays * dayLength } }).addTxn
      { user := uid, amount := -plan.cost, type := .plan_purchase,
        description := "Compra do plano " ++ plan.name }).findUser rid =
      some refUser := by
    rw [findUser_addTxn]
    rw [findUser_saveUser_ne (by
      show user.id ≠ rid
      rw [hkey]
      exact fun hcon => hru hcon.symm)]
    exact href
  obtain ⟨hfr, hcount⟩ := referralPost_bonus (plan.cost * (1/10 : ℚ)) .referral_plan
    ("Bônus de 10% pela ativação do plano de " ++ user.username) (some uid) href1
  refine ⟨rfl, hfr, ?_⟩
  rw [hcount, addTxn_txns, saveUser_txns, countTx_append]
  simp

lemma buyPlan_no_bonus {db : DB} {uid pid now : ℕ} {user : User} {plan : Plan}
    (hplan : db.findPlan pid = some plan)
    (huser : db.findUser uid = some user)
    (hact : plan.isActive = true)
    (hnoplan : hasUnexpiredPlan user now = false)
    (hbal : ¬ user.balance < plan.cost)
    (hnb : user.referredBy = none ∨
      ∃ rid, user.referredBy = some rid ∧ rid ≠ uid ∧ db.findUser rid = none) :
    (buyPlan db uid pid now).1 = .ok () ∧
    (buyPlan db uid pid now).2.txns = db.txns ++
      [{ user := uid, amount := -plan.cost, type := .plan_purchase,
         description := "Compra do plano " ++ plan.name }] := by
  have hkey : user.id = uid := findUser_key huser
  have hc1 : ¬ ¬ plan.isActive = true := not_not_intro hact
  have hc2 : ¬ hasUnexpiredPlan user now = true := by
    rw [hnoplan]
    exact Bool.false_ne_true
  unfold buyPlan
  rw [hplan, huser]
  dsimp only
  rw [if_neg hc1, if_neg hc2, if_neg hbal]
  rcases hnb with hnone | ⟨rid, hsome, hru, hmiss⟩
  · rw [hnone, referralPost_none]
    exact ⟨rfl, rfl⟩
  · rw [hsome]
    have hmiss1 : ((db.saveUser
        { user with
          referredBy := some rid,
          balance := user.balance - plan.cost,
          activePlan := some
            { planId := plan.id, name := plan.name, activationDate := now,
              expiryDate := now + plan.durationInDays * dayLength } }).addTxn
        { user := uid, amount := -plan.cost, type := .plan_purchase,
          description := "Compra do plano " ++ plan.name }).findUser rid = none := by
      rw [findUser_addTxn]
      rw [findUser_saveUser_ne (by
        show user.id ≠ rid
        rw [hkey]
        exact fun hcon => hru hcon.symm)]
      exact hmiss
    rw [referralPost_missing _ _ _ _ hmiss1]
    exact ⟨rfl, rfl⟩

lemma approveDeposit_processed {db : DB} {did : ℕ} {dep : Deposit}
    (h : db.findDeposit did = some dep) (hst : dep.status ≠ .pending) :
    approveDeposit db did = (.error .alreadyProcessed, db) := by
  unfold approveDeposit
  rw [h]
  dsimp only
  rw [if_pos hst]

lemma rejectDeposit_processed {db : DB} {did : ℕ} {dep : Deposit}
    (h : db.findDeposit did = some dep) (hst : dep.status ≠ .pending) :
    rejectDeposit db did = (.error .alreadyProcessed, db) := by
  unfold rejectDeposit
  rw [h]
  dsimp only
  rw [if_pos hst]

lemma approveWithdrawal_processed {db : DB} {wid : ℕ} {w : Withdrawal}
    (h : db.findWithdrawal wid = some w) (hst : w.status ≠ .pending) :
    approveWithdrawal db wid = (.error .alreadyProcessed, db) := by
  unfold approveWithdrawal
  rw [h]
  dsimp only
  rw [if_pos hst]

lemma rejectWithdrawal_processed {db : DB} {wid : ℕ} {w : Withdrawal}
    (h : db.findWithdrawal wid = some w) (hst : w.status ≠ .pending) :
    rejectWithdrawal db wid = (.error .alreadyProcessed, db) := by
  unfold rejectWithdrawal
  rw [h]
  dsimp only
  rw [if_pos hst]

lemma requestWithdrawal_insufficient {db : DB} {uid wid : ℕ} {user : User} {ap : ActivePlan}
    {amount : ℚ} {pm ph : String} {now : ℕ}
    (huser : db.findUser uid = some user)
    (hamt : amount ≠ 0) (hpm : pm ≠ "") (hph : ph ≠ "")
    (hap : user.activePlan = some ap) (hexp : ¬ ap.expiryDate < now)
    (hbal : user.balance < amount) :
    requestWithdrawal db uid wid amount pm ph now = (.error .insufficientFunds, db) := by
  unfold requestWithdrawal
  rw [huser]
  dsimp only
  rw [if_neg (by simp [hamt, hpm, hph])]
  rw [hap]
  dsimp only
  rw [if_neg (by simp [hexp]), if_pos hbal]

lemma requestWithdrawal_noplan {db : DB} {uid wid : ℕ} {user : User}
    {amount : ℚ} {pm ph : String} {now : ℕ}
    (huser : db.findUser uid = some user)
    (hamt : amount ≠ 0) (hpm : pm ≠ "") (hph : ph ≠ "")
    (hap : user.activePlan = none) :
    requestWithdrawal db uid wid amount pm ph now = (.error .noActivePlan, db) := by
  unfold requestWithdrawal
  rw [huser]
  dsimp only
  rw [if_neg (by simp [hamt, hpm, hph])]
  rw [hap]
  dsimp only
  rw [if_pos rfl]

lemma markWatched_referral {db : DB} {uid vid now rid : ℕ} {user refUser : User}
    {ap : ActivePlan} {plan : Plan}
    (huser : db.findUser uid = some user)
    (hap : user.activePlan = some ap)
    (hplan : db.findPlan ap.planId = some plan)
    (hexp : ¬ ap.expiryDate < now)
    (hquota : (checkAndResetDailyVideos db user now).1.dailyWatchedVideos.length <
      plan.dailyVideoLimit)
    (hnew : vid ∉ (checkAndResetDailyVideos db user now).1.dailyWatchedVideos)
    (hrb : user.referredBy = some rid)
    (hru : rid ≠ uid)
    (href : db.findUser rid = some refUser) :
    (markVideoAsWatched db uid vid now).1 = .ok () ∧
    (markVideoAsWatched db uid vid now).2.findUser rid =
      some { refUser with balance := refUser.balance + plan.rewardPerVideo * (1/20 : ℚ) } ∧
    countTx (markVideoAsWatched db uid vid now).2.txns rid .referral_daily =
      countTx db.txns rid .referral_daily + 1 := by
  have hkey : user.id = uid := findUser_key huser
  have hfind0 := @findUser_checkReset _ _ now _ huser
  have hid0 : (checkAndResetDailyVideos db user now).1.id = uid := by
    rw [checkReset_id, hkey]
  unfold markVideoAsWatched
  rw [huser]
  dsimp only
  rw [hap]
  dsimp only
  rw [hplan]
  dsimp only
  rw [if_neg hexp, if_neg (not_le.2 hquota), if_neg hnew]
  rw [checkReset_referredBy, hrb]
  have href1 : (((checkAndResetDailyVideos db user now).2.saveUser
      { (checkAndResetDailyVideos db user now).1 with
        referredBy := some rid,
        dailyWatchedVideos :=
          (checkAndResetDailyVideos db user now).1.dailyWatchedVideos ++ [vid],
        fullWatchedHistory :=
          if vid ∈ (checkAndResetDailyVideos db user now).1.fullWatchedHistory then
            (checkAndResetDailyVideos db user now).1.fullWatchedHistory
          else (checkAndResetDailyVideos db user now).1.fullWatchedHistory ++ [vid],
        balance := (checkAndResetDailyVideos db user now).1.balance +
          plan.rewardPerVideo }).addTxn
      { user := uid, amount := plan.rewardPerVideo, type := .daily_reward,
        description := "Recompensa por assistir vídeo.", referenceId := some vid }).findUser
      rid = some refUser := by
    rw [findUser_addTxn]
    rw [findUser_saveUser_ne (by
      show (checkAndResetDailyVideos db user now).1.id ≠ rid
      rw [hid0]
      exact fun hcon => hru hcon.symm)]
    rw [findUser_checkReset_other (by
      rw [hkey]
      exact fun hcon => hru hcon.symm)]
    exact href
  obtain ⟨hfr, hcount⟩ := referralPost_bonus (plan.rewardPerVideo * (1/20 : ℚ)) .referral_daily
    ("Bônus de 5% sobre o ganho diário de " ++ user.username) (some uid) href1
  refine ⟨rfl, hfr, ?_⟩
  rw [hcount, addTxn_txns, saveUser_txns, countTx_append, checkReset_txns]
  simp

lemma markWatched_no_bonus {db : DB} {uid vid now : ℕ} {user : User}
    {ap : ActivePlan} {plan : Plan}
    (huser : db.findUser uid = some user)
    (hap : user.activePlan = some ap)
    (hplan : db.findPlan ap.planId = some plan)
    (hexp : ¬ ap.expiryDate < now)
    (hquota : (checkAndResetDailyVideos db user now).1.dailyWatchedVideos.length <
      plan.dailyVideoLimit)
    (hnew : vid ∉ (checkAndResetDailyVideos db user now).1.dailyWatchedVideos)
    (hnb : user.referredBy = none ∨
      ∃ rid, user.referredBy = some rid ∧ rid ≠ uid ∧ db.findUser rid = none) :
    (markVideoAsWatched db uid vid now).1 = .ok () ∧
    (markVideoAsWatched db uid vid now).2.txns = db.txns ++
      [{ user := uid, amount := plan.rewardPerVideo, type := .daily_reward,
         description := "Recompensa por assistir vídeo.", referenceId := some vid }] := by
  have hkey : user.id = uid := findUser_key huser
  have hid0 : (checkAndResetDailyVideos db user now).1.id = uid := by
    rw [checkReset_id, hkey]
  unfold markVideoAsWatched
  rw [huser]
  dsimp only
  rw [hap]
  dsimp only
  rw [hplan]
  dsimp only
  rw [if_neg hexp, if_neg (not_le.2 hquota), if_neg hnew]
  rw [checkReset_referredBy]
  rcases hnb with hnone | ⟨rid, hsome, hru, hmiss⟩
  · rw [hnone, referralPost_none]
    refine ⟨rfl, ?_⟩
    show ((checkAndResetDailyVideos db user now).2.saveUser _).txns ++ _ = _
    rw [saveUser_txns, checkReset_txns]
  · rw [hsome]
    have hmiss1 : (((checkAndResetDailyVideos db user now).2.saveUser
        { (checkAndResetDailyVideos db user now).1 with
          referredBy := some rid,
          dailyWatchedVideos :=
            (checkAndResetDailyVideos db user now).1.dailyWatchedVideos ++ [vid],
          fullWatchedHistory :=
            if vid ∈ (checkAndResetDailyVideos db user now).1.fullWatchedHistory then
              (checkAndResetDailyVideos db user now).1.fullWatchedHistory
            else (checkAndResetDailyVideos db user now).1.fullWatchedHistory ++ [vid],
          balance := (checkAndResetDailyVideos db user now).1.balance +
            plan.rewardPerVideo }).addTxn
        { user := uid, amount := plan.rewardPerVideo, type := .daily_reward,
          description := "Recompensa por assistir vídeo.", referenceId := some vid }).findUser
        rid = none := by
      rw [findUser_addTxn]
      rw [findUser_saveUser_ne (by
        show (checkAndResetDailyVideos db user now).1.id ≠ rid
        rw [hid0]
        exact fun hcon => hru hcon.symm)]
      rw [findUser_checkReset_other (by
        rw [hkey]
        exact fun hcon => hru hcon.symm)]
      exact hmiss
    rw [referralPost_missing _ _ _ _ hmiss1]
    refine ⟨rfl, ?_⟩
    show ((checkAndResetDailyVideos db user now).2.saveUser _).txns ++ _ = _
    rw [saveUser_txns, checkReset_txns]

/-- Example catalog plan: cost 100 MT, one 5 MT video per day, 30 days. -/
def examplePlan : Plan :=
  { id := 1, name := "Premium", cost := 100, dailyVideoLimit := 1, durationInDays := 30,
    rewardPerVideo := 5, totalReward := 150, isActive := true }

/-- Example catalog plan with a two-video daily quota. -/
def examplePlan2 : Plan :=
  { id := 2, name := "Gold", cost := 200, dailyVideoLimit := 2, durationInDays := 30,
    rewardPerVideo := 5, totalReward := 300, isActive := true }

/-- A referrer account holding no plan. -/
def ana : User :=
  { id := 1, username := "ana", email := "ana@x.com", referralCode := "ANA1",
    balance := 50, referredBy := none, activePlan := none, dailyWatchedVideos := [],
    lastVideoReset := none, fullWatchedHistory := [] }

/-- The plan reference snapshot held by `bruno`. -/
def brunoPlanRef : ActivePlan :=
  { planId := 1, name := "Premium", activationDate := 0, expiryDate := 86400000 }

/-- An account referred by `ana` holding an active `examplePlan` subscription,
already reset today (at instant 1000). -/
def bruno : User :=
  { id := 2, username := "bruno", email := "bruno@x.com", referralCode := "BRU1",
    balance := 150, referredBy := some 1, activePlan := some brunoPlanRef,
    dailyWatchedVideos := [], lastVideoReset := some 1000, fullWatchedHistory := [] }

/-- An account referred by `ana` holding no plan yet, able to afford one. -/
def bruno0 : User :=
  { id := 2, username := "bruno", email := "bruno@x.com", referralCode := "BRU1",
    balance := 150, referredBy := some 1, activePlan := none,
    dailyWatchedVideos := [], lastVideoReset := none, fullWatchedHistory := [] }

/-- The database reached from the empty store by one registration step. -/
def dbSignup : DB := (registerUser DB.init 1 "ana" "ana@x.com" "pw" none "ANA1").2

/-- A store with `ana` plus an already-resolved deposit and withdrawal. -/
def dbProcessed : DB :=
  { users := [ana], plans := [], videos := [], txns := [],
    deposits :=
      [{ id := 10, user := 1, amount := 300, paymentMethod := "M-Pesa",
         status := .approved }],
    withdrawals :=
      [{ id := 20, user := 1, amount := 40, paymentMethod := "M-Pesa",
         phoneNumber := "841234567", status := .rejected }] }

/-- A store where `bruno` holds the one-video-per-day plan. -/
def dbQuota : DB :=
  { users := [ana, bruno], plans := [examplePlan], videos := [7, 8], txns := [],
    deposits := [], withdrawals := [] }

/-- A store where `bruno0` can buy `examplePlan` with `ana` as referrer. -/
def dbBuy : DB :=
  { users := [ana, bruno0], plans := [examplePlan], videos := [], txns := [],
    deposits := [], withdrawals := [] }

/-- C1: in every reachable database state, every account's balance equals the
sum of the amounts of its `completed` ledger entries — each balance-mutating
operation posts exactly the matching completed entries, so the reconciliation
invariant is maintained (entries also always reference stored accounts). -/
theorem C1_ledger_reconciliation (db : DB) (h : Reachable db) :
    (∀ u ∈ db.users, u.balance = sumFor db.txns u.id) ∧
    (∀ t ∈ db.txns, ∃ u ∈ db.users, u.id = t.user) :=
  reachable_ledgerInv h

theorem C1_ledger_reconciliation_witness :
    ∃ u ∈ dbSignup.users, u.balance = sumFor dbSignup.txns u.id :=
  ⟨ana, by decide,
    (C1_ledger_reconciliation dbSignup
      (Relation.ReflTransGen.single
        (Step.register DB.init 1 "ana" "ana@x.com" "pw" none "ANA1"))).1 ana (by decide)⟩

/-- C3: approving or rejecting a funding or payout request whose status is no
longer `pending` fails with `alreadyProcessed` and returns the database
completely unchanged — no additional ledger entry, no balance change, so
approval has at-most-once effect. -/
theorem C3_approval_at_most_once (db : DB) (did wid : ℕ) (dep : Deposit) (w : Withdrawal)
    (hdep : db.findDeposit did = some dep) (hds : dep.status ≠ .pending)
    (hw : db.findWithdrawal wid = some w) (hws : w.status ≠ .pending) :
    approveDeposit db did = (.error .alreadyProcessed, db) ∧
    rejectDeposit db did = (.error .alreadyProcessed, db) ∧
    approveWithdrawal db wid = (.error .alreadyProcessed, db) ∧
    rejectWithdrawal db wid = (.error .alreadyProcessed, db) :=
  ⟨approveDeposit_processed hdep hds, rejectDeposit_processed hdep hds,
   approveWithdrawal_processed hw hws, rejectWithdrawal_processed hw hws⟩

theorem C3_approval_at_most_once_witness :
    approveDeposit dbProcessed 10 = (.error .alreadyProcessed, dbProcessed) ∧
    rejectDeposit dbProcessed 10 = (.error .alreadyProcessed, dbProcessed) ∧
    approveWithdrawal dbProcessed 20 = (.error .alreadyProcessed, dbProcessed) ∧
    rejectWithdrawal dbProcessed 20 = (.error .alreadyProcessed, dbProcessed) :=
  C3_approval_at_most_once dbProcessed 10 20
    { id := 10, user := 1, amount := 300, paymentMethod := "M-Pesa", status := .approved }
    { id := 20, user := 1, amount := 40, paymentMethod := "M-Pesa",
      phoneNumber := "841234567", status := .rejected }
    (by rfl) (by decide) (by rfl) (by decide)

/-- C2 counterexample: `adjustUserBalance` in `part_005` validates only that
the amount is positive — a `remove` adjustment larger than the balance drives
it negative (50 − 100 = −50) and still records the transaction. -/
theorem C2_adjust_balance_goes_negative :
    Part005.adjustUserBalance ⟨50⟩ 100 "remove" =
      .ok (⟨-50⟩, ⟨-100, "manual_adjustment"⟩) ∧ ((-50 : ℚ) < 0) := by
  constructor
  · norm_num [Part005.adjustUserBalance]
    decide
  · norm_num

/-- C2 amended: provided externally supplied amounts are themselves
nonnegative (deposit requests, plan cost and per-video reward — the input
validation `!amount` only rejects `0`), every controllers operation preserves
nonnegativity of all balances; `manualBalanceUpdate` checks only after the
in-memory mutation and relies on the aborted transaction, and `part_005`'s
`adjustUserBalance` has no guard at all and can drive a balance negative. -/
theorem C2_balance_nonneg_preserved (db : DB) (h : MoneyInv db) :
    (∀ uid un em pw rc mc, MoneyInv (registerUser db uid un em pw rc mc).2) ∧
    (∀ uid pid now, MoneyInv (buyPlan db uid pid now).2) ∧
    (∀ uid vid now, MoneyInv (markVideoAsWatched db uid vid now).2) ∧
    (∀ uid now sample, MoneyInv (getDailyVideos db uid now sample).2) ∧
    (∀ uid did amount pm hp, 0 ≤ amount →
      MoneyInv (requestDeposit db uid did amount pm hp).2) ∧
    (∀ uid wid amount pm ph now,
      MoneyInv (requestWithdrawal db uid wid amount pm ph now).2) ∧
    (∀ did, MoneyInv (approveDeposit db did).2) ∧
    (∀ did, MoneyInv (rejectDeposit db did).2) ∧
    (∀ wid, MoneyInv (approveWithdrawal db wid).2) ∧
    (∀ wid, MoneyInv (rejectWithdrawal db wid).2) ∧
    (∀ uid amount descr, MoneyInv (manualBalanceUpdate db uid amount descr).2) ∧
    (∀ pid name cost lim dur reward, 0 ≤ cost → 0 ≤ reward →
      MoneyInv (createPlan db pid name cost lim dur reward).2) ∧
    (∀ vid, MoneyInv (uploadVideo db vid).2) ∧
    (∀ vid, MoneyInv (deleteVideo db vid).2) :=
  ⟨fun uid un em pw rc mc => money_registerUser db uid un em pw rc mc h,
   fun uid pid now => money_buyPlan db uid pid now h,
   fun uid vid now => money_markWatched db uid vid now h,
   fun uid now sample => money_getDailyVideos db uid now sample h,
   fun uid did amount pm hp hpos => money_requestDeposit db uid did amount pm hp hpos h,
   fun uid wid amount pm ph now => money_requestWithdrawal db uid wid amount pm ph now h,
   fun did => money_approveDeposit db did h,
   fun did => money_rejectDeposit db did h,
   fun wid => money_approveWithdrawal db wid h,
   fun wid => money_rejectWithdrawal db wid h,
   fun uid amount descr => money_manualBalanceUpdate db uid amount descr h,
   fun pid name cost lim dur reward hc hr => money_createPlan db pid name cost lim dur reward hc hr h,
   fun vid => money_uploadVideo db vid h,
   fun vid => money_deleteVideo db vid h⟩

theorem C2_balance_nonneg_preserved_witness :
    MoneyInv dbQuota ∧ MoneyInv (manualBalanceUpdate dbQuota 2 (-20) "ajuste").2 := by
  have hm : MoneyInv dbQuota := by
    refine ⟨?_, ?_, ?_⟩ <;> decide
  exact ⟨hm,
    (((((((((((C2_balance_nonneg_preserved dbQuota hm).2).2).2).2).2).2).2).2).2).2).1
      2 (-20) "ajuste"⟩

/-- C4 counterexample: in `dbQuota` the account `bruno` holds a plan whose
daily limit is one video. Watching video 7 at instant 2000 succeeds, but the
second identical call on the same day fails with `quotaExhausted`, not
`alreadyCredited`: the quota guard runs before the double-credit guard. -/
theorem C4_second_call_quota_not_credited :
    (markVideoAsWatched dbQuota 2 7 2000).1 = .ok () ∧
    (markVideoAsWatched (markVideoAsWatched dbQuota 2 7 2000).2 2 7 2000).1 =
      .error .quotaExhausted ∧
    Err.quotaExhausted ≠ Err.alreadyCredited := by
  have hday : sameDay bruno 2000 := ⟨1000, rfl, by decide⟩
  have hrw := @checkReset_noop dbQuota bruno 2000 hday
  have hq : (checkAndResetDailyVideos dbQuota bruno 2000).1.dailyWatchedVideos.length <
      examplePlan.dailyVideoLimit := by
    rw [hrw]
    decide
  have hn : (7 : ℕ) ∉ (checkAndResetDailyVideos dbQuota bruno 2000).1.dailyWatchedVideos := by
    rw [hrw]
    decide
  obtain ⟨hok, u', hfu', hid', hdw', hap', hday', hlvr', hrb', husn', hplans', hcount'⟩ :=
    markWatched_success_core (show dbQuota.findUser 2 = some bruno by rfl) rfl
      (by rfl) (by decide) hq hn
  refine ⟨hok, ?_, by decide⟩
  rw [hrw] at hdw'
  have hap2 : u'.activePlan = some brunoPlanRef := hap'.trans rfl
  have hplan2 : (markVideoAsWatched dbQuota 2 7 2000).2.findPlan brunoPlanRef.planId =
      some examplePlan := by
    rw [findPlan_congr hplans']
    rfl
  have hq2 : examplePlan.dailyVideoLimit ≤
      (checkAndResetDailyVideos (markVideoAsWatched dbQuota 2 7 2000).2 u'
        2000).1.dailyWatchedVideos.length := by
    rw [@checkReset_noop _ u' 2000 hday']
    dsimp only
    rw [hdw']
    decide
  have herr := @markWatched_quota_err _ 2 7 2000 u' brunoPlanRef examplePlan
    hfu' hap2 hplan2 (by decide) hq2
  rw [herr]

/-- C4 (amended): for an account with an unexpired active plan already reset to
the current business day, spare quota and a not-yet-credited video, the first
`markVideoAsWatched` call succeeds and posts exactly one `daily_reward` entry;
the second identical call fails and persists nothing further — but the error is
`quotaExhausted` whenever the first call filled the daily quota, and
`alreadyCredited` only otherwise, because the quota guard runs first. -/
theorem C4_double_watch_amended (db : DB) (uid vid now : ℕ) (user : User)
    (ap : ActivePlan) (plan : Plan)
    (huser : db.findUser uid = some user)
    (hap : user.activePlan = some ap)
    (hplan : db.findPlan ap.planId = some plan)
    (hexp : ¬ ap.expiryDate < now)
    (hday : sameDay user now)
    (hquota : user.dailyWatchedVideos.length < plan.dailyVideoLimit)
    (hnew : vid ∉ user.dailyWatchedVideos) :
    (markVideoAsWatched db uid vid now).1 = .ok () ∧
    countTx (markVideoAsWatched db uid vid now).2.txns uid .daily_reward =
      countTx db.txns uid .daily_reward + 1 ∧
    markVideoAsWatched (markVideoAsWatched db uid vid now).2 uid vid now =
      (.error (if plan.dailyVideoLimit = user.dailyWatchedVideos.length + 1 then
          Err.quotaExhausted else Err.alreadyCredited),
        (markVideoAsWatched db uid vid now).2) := by
  have hrw := @checkReset_noop db user now hday
  have hq : (checkAndResetDailyVideos db user now).1.dailyWatchedVideos.length <
      plan.dailyVideoLimit := by
    rw [hrw]
    exact hquota
  have hn : vid ∉ (checkAndResetDailyVideos db user now).1.dailyWatchedVideos := by
    rw [hrw]
    exact hnew
  obtain ⟨hok, u', hfu', hid', hdw', hap', hday', hlvr', hrb', husn', hplans', hcount'⟩ :=
    markWatched_success_core huser hap hplan hexp hq hn
  refine ⟨hok, hcount', ?_⟩
  rw [hrw] at hdw'
  have hap2 : u'.activePlan = some ap := hap'.trans hap
  have hplan2 : (markVideoAsWatched db uid vid now).2.findPlan ap.planId = some plan := by
    rw [findPlan_congr hplans']
    exact hplan
  have hlen' : u'.dailyWatchedVideos.length = user.dailyWatchedVideos.length + 1 := by
    rw [hdw']
    simp
  by_cases hlim : plan.dailyVideoLimit = user.dailyWatchedVideos.length + 1
  · rw [if_pos hlim]
    have hq2 : plan.dailyVideoLimit ≤
        (checkAndResetDailyVideos (markVideoAsWatched db uid vid now).2 u'
          now).1.dailyWatchedVideos.length := by
      rw [@checkReset_noop _ u' now hday']
      dsimp only
      omega
    have herr := @markWatched_quota_err _ uid vid now u' ap plan hfu' hap2 hplan2 hexp hq2
    rw [@checkReset_noop _ u' now hday'] at herr
    exact herr
  · rw [if_neg hlim]
    have hq2 : ¬ plan.dailyVideoLimit ≤
        (checkAndResetDailyVideos (markVideoAsWatched db uid vid now).2 u'
          now).1.dailyWatchedVideos.length := by
      rw [@checkReset_noop _ u' now hday']
      dsimp only
      omega
    have hold : vid ∈
        (checkAndResetDailyVideos (markVideoAsWatched db uid vid now).2 u'
          now).1.dailyWatchedVideos := by
      rw [@checkReset_noop _ u' now hday']
      dsimp only
      rw [hdw']
      exact List.mem_append_right _ (List.mem_cons_self vid [])
    have herr := markWatched_already_err hfu' hap2 hplan2 hexp hq2 hold
    rw [@checkReset_noop _ u' now hday'] at herr
    exact herr

theorem C4_double_watch_amended_witness :
    (markVideoAsWatched dbQuota 2 8 2000).1 = .ok () ∧
    countTx (markVideoAsWatched dbQuota 2 8 2000).2.txns 2 .daily_reward =
      countTx dbQuota.txns 2 .daily_reward + 1 ∧
    markVideoAsWatched (markVideoAsWatched dbQuota 2 8 2000).2 2 8 2000 =
      (.error (if examplePlan.dailyVideoLimit = bruno.dailyWatchedVideos.length + 1 then
          Err.quotaExhausted else Err.alreadyCredited),
        (markVideoAsWatched dbQuota 2 8 2000).2) :=
  C4_double_watch_amended dbQuota 2 8 2000 bruno brunoPlanRef examplePlan
    (by rfl) rfl (by rfl) (by decide) ⟨1000, rfl, by decide⟩ (by decide) (by decide)

/-- Once the daily reset boundary has passed, a fresh nodup batch within the
daily limit is fully credited: the first call triggers the lazy reset, the
rest run inside the new day. -/
lemma watch_run_reset {uid now2 t0 : ℕ} {ap : ActivePlan} {plan : Plan} (vids2 : List ℕ)
    (db : DB) (user : User)
    (huser : db.findUser uid = some user)
    (hap : user.activePlan = some ap)
    (hplan : db.findPlan ap.planId = some plan)
    (hexp : ¬ ap.expiryDate < now2)
    (hlvr : user.lastVideoReset = some t0)
    (ht : t0 < startOfDay now2)
    (hnodup : vids2.Nodup)
    (hlen : vids2.length ≤ plan.dailyVideoLimit) :
    watchAllOk db uid now2 vids2 := by
  cases vids2 with
  | nil => exact trivial
  | cons w ws =>
      have hreset := @checkReset_trigger db user now2 t0 hlvr ht
      have hq : (checkAndResetDailyVideos db user now2).1.dailyWatchedVideos.length <
          plan.dailyVideoLimit := by
        rw [hreset]
        dsimp only
        simp only [List.length_nil, List.length_cons] at hlen ⊢
        omega
      have hn : w ∉ (checkAndResetDailyVideos db user now2).1.dailyWatchedVideos := by
        rw [hreset]
        dsimp only
        simp
      obtain ⟨hok, u', hfu', hid', hdw', hap', hday', hlvr', hrb', husn', hplans', hcount'⟩ :=
        markWatched_success_core huser hap hplan hexp hq hn
      rw [hreset] at hdw' hlvr'
      dsimp only at hdw' hlvr'
      refine ⟨hok, ?_⟩
      have hap2 : u'.activePlan = some ap := hap'.trans hap
      have hplan2 : (markVideoAsWatched db uid w now2).2.findPlan ap.planId = some plan := by
        rw [findPlan_congr hplans']
        exact hplan
      have hfresh : ∀ v ∈ ws, v ∉ u'.dailyWatchedVideos := by
        intro v hv
        rw [hdw']
        simp only [List.nil_append, List.mem_singleton]
        intro hvw
        exact (List.nodup_cons.1 hnodup).1 (hvw ▸ hv)
      have hlen2 : u'.dailyWatchedVideos.length + ws.length ≤ plan.dailyVideoLimit := by
        rw [hdw']
        simp only [List.nil_append, List.length_nil, List.length_cons] at hlen ⊢
        omega
      exact (watch_run ws (markVideoAsWatched db uid w now2).2 u' hfu' hap2 hplan2 hexp
        hday' hfresh (List.nodup_cons.1 hnodup).2 hlen2).1

/-- An active-plan snapshot for `examplePlan2` lasting two business days. -/
def carlosPlanRef : ActivePlan :=
  { planId := 2, name := "Gold", activationDate := 0, expiryDate := 172800000 }

/-- An account holding the two-video plan, already reset today (instant 1000). -/
def carlos : User :=
  { id := 3, username := "carlos", email := "carlos@x.com", referralCode := "CAR1",
    balance := 100, referredBy := none, activePlan := some carlosPlanRef,
    dailyWatchedVideos := [], lastVideoReset := some 1000, fullWatchedHistory := [] }

/-- A store where `carlos` holds the two-video-per-day plan. -/
def dbC5 : DB :=
  { users := [carlos], plans := [examplePlan2], videos := [7, 8], txns := [],
    deposits := [], withdrawals := [] }

/-- C5: with a daily limit of `n = plan.dailyVideoLimit`, a same-day batch of
`n` distinct fresh videos is fully credited; any further call that day fails
with `quotaExhausted` and persists nothing; and once the start-of-day boundary
passes, a fresh nodup batch of up to `n` videos is again fully credited. -/
theorem C5_quota_boundary (db : DB) (uid now now2 t0 : ℕ) (user : User)
    (ap : ActivePlan) (plan : Plan) (vids : List ℕ)
    (huser : db.findUser uid = some user)
    (hap : user.activePlan = some ap)
    (hplan : db.findPlan ap.planId = some plan)
    (hexp : ¬ ap.expiryDate < now)
    (hlvr : user.lastVideoReset = some t0)
    (hd : startOfDay now ≤ t0)
    (hempty : user.dailyWatchedVideos = [])
    (hnodup : vids.Nodup)
    (hcount : vids.length = plan.dailyVideoLimit)
    (hexp2 : ¬ ap.expiryDate < now2)
    (ht2 : t0 < startOfDay now2) :
    watchAllOk db uid now vids ∧
    (∀ w, markVideoAsWatched (runWatch db uid now vids) uid w now =
      (.error .quotaExhausted, runWatch db uid now vids)) ∧
    (∀ vids2 : List ℕ, vids2.Nodup → vids2.length ≤ plan.dailyVideoLimit →
      watchAllOk (runWatch db uid now vids) uid now2 vids2) := by
  have hday : sameDay user now := ⟨t0, hlvr, hd⟩
  have hfresh : ∀ v ∈ vids, v ∉ user.dailyWatchedVideos := by
    intro v _
    rw [hempty]
    simp
  have hlenb : user.dailyWatchedVideos.length + vids.length ≤ plan.dailyVideoLimit := by
    rw [hempty]
    simp [hcount]
  obtain ⟨hall, u', hfu', hap', hday', hlvr', hdw', hplans'⟩ :=
    watch_run vids db user huser hap hplan hexp hday hfresh hnodup hlenb
  have hap2 : u'.activePlan = some ap := hap'.trans hap
  have hplan2 : (runWatch db uid now vids).findPlan ap.planId = some plan := by
    rw [findPlan_congr hplans']
    exact hplan
  refine ⟨hall, ?_, ?_⟩
  · intro w
    have hq2 : plan.dailyVideoLimit ≤
        (checkAndResetDailyVideos (runWatch db uid now vids) u'
          now).1.dailyWatchedVideos.length := by
      rw [@checkReset_noop _ u' now hday']
      dsimp only
      rw [hdw', hempty]
      simp only [List.nil_append]
      omega
    have herr := @markWatched_quota_err _ uid w now u' ap plan hfu' hap2 hplan2 hexp hq2
    rw [@checkReset_noop _ u' now hday'] at herr
    exact herr
  · intro vids2 hnd2 hlen2
    exact watch_run_reset vids2 (runWatch db uid now vids) u' hfu' hap2 hplan2 hexp2
      (hlvr'.trans hlvr) ht2 hnd2 hlen2

theorem C5_quota_boundary_witness :
    watchAllOk dbC5 3 2000 [7, 8] ∧
    (∀ w, markVideoAsWatched (runWatch dbC5 3 2000 [7, 8]) 3 w 2000 =
      (.error .quotaExhausted, runWatch dbC5 3 2000 [7, 8])) ∧
    (∀ vids2 : List ℕ, vids2.Nodup → vids2.length ≤ examplePlan2.dailyVideoLimit →
      watchAllOk (runWatch dbC5 3 2000 [7, 8]) 3 86400005 vids2) :=
  C5_quota_boundary dbC5 3 2000 86400005 1000 carlos carlosPlanRef examplePlan2 [7, 8]
    (by rfl) rfl (by rfl) (by decide) rfl (by decide) rfl (by decide) (by rfl)
    (by decide) (by decide)

/-- C6: referral propagation. When account `uid`, referred by `rid`, buys a
plan of cost `c`, the referrer is credited exactly 10% of `c` through exactly
one `referral_plan` entry while the buyer pays `c` through exactly one
`plan_purchase` entry; when a video reward is credited, the referrer receives
exactly 5% of the per-video reward through exactly one `referral_daily` entry;
and when the account has no referrer, or the referrer is missing from the
store, the primary operation still succeeds and posts no bonus entry. -/
theorem C6_referral_propagation (db : DB) (uid now rid : ℕ) (user refUser : User)
    (huser : db.findUser uid = some user) :
    (∀ pid plan, db.findPlan pid = some plan → plan.isActive = true →
      hasUnexpiredPlan user now = false → ¬ user.balance < plan.cost →
      user.referredBy = some rid → rid ≠ uid → db.findUser rid = some refUser →
      (buyPlan db uid pid now).1 = .ok () ∧
      (buyPlan db uid pid now).2.findUser rid =
        some { refUser with balance := refUser.balance + plan.cost * (1/10 : ℚ) } ∧
      countTx (buyPlan db uid pid now).2.txns rid .referral_plan =
        countTx db.txns rid .referral_plan + 1 ∧
      (∃ u', (buyPlan db uid pid now).2.findUser uid = some u' ∧
        u'.balance = user.balance - plan.cost) ∧
      countTx (buyPlan db uid pid now).2.txns uid .plan_purchase =
        countTx db.txns uid .plan_purchase + 1) ∧
    (∀ vid ap plan, user.activePlan = some ap → db.findPlan ap.planId = some plan →
      ¬ ap.expiryDate < now → sameDay user now →
      user.dailyWatchedVideos.length < plan.dailyVideoLimit →
      vid ∉ user.dailyWatchedVideos →
      user.referredBy = some rid → rid ≠ uid → db.findUser rid = some refUser →
      (markVideoAsWatched db uid vid now).1 = .ok () ∧
      (markVideoAsWatched db uid vid now).2.findUser rid =
        some { refUser with
          balance := refUser.balance + plan.rewardPerVideo * (1/20 : ℚ) } ∧
      countTx (markVideoAsWatched db uid vid now).2.txns rid .referral_daily =
        countTx db.txns rid .referral_daily + 1) ∧
    (∀ pid plan, db.findPlan pid = some plan → plan.isActive = true →
      hasUnexpiredPlan user now = false → ¬ user.balance < plan.cost →
      (user.referredBy = none ∨
        ∃ k, user.referredBy = some k ∧ k ≠ uid ∧ db.findUser k = none) →
      (buyPlan db uid pid now).1 = .ok () ∧
      ∀ k, countTx (buyPlan db uid pid now).2.txns k .referral_plan =
        countTx db.txns k .referral_plan) ∧
    (∀ vid ap plan, user.activePlan = some ap → db.findPlan ap.planId = some plan →
      ¬ ap.expiryDate < now → sameDay user now →
      user.dailyWatchedVideos.length < plan.dailyVideoLimit →
      vid ∉ user.dailyWatchedVideos →
      (user.referredBy = none ∨
        ∃ k, user.referredBy = some k ∧ k ≠ uid ∧ db.findUser k = none) →
      (markVideoAsWatched db uid vid now).1 = .ok () ∧
      ∀ k, countTx (markVideoAsWatched db uid vid now).2.txns k .referral_daily =
        countTx db.txns k .referral_daily) := by
  refine ⟨?_, ?_, ?_, ?_⟩
  · intro pid plan hplan hact hnoplan hbal hrb hru href
    obtain ⟨hok, hfr, hcr⟩ := buyPlan_referral hplan huser hact hnoplan hbal hrb hru href
    obtain ⟨hok2, u', hfu, hid, hapx, hdw, hfwh, hlvr, hbal', hcp⟩ :=
      buyPlan_success_core hplan huser hact hnoplan hbal
    refine ⟨hok, hfr, hcr, ⟨u', hfu, ?_⟩, hcp⟩
    rw [hbal', hrb, if_neg (by simpa using hru), add_zero]
  · intro vid ap plan hap hplan hexp hday hquota hnew hrb hru href
    have hrw := @checkReset_noop db user now hday
    have hq : (checkAndResetDailyVideos db user now).1.dailyWatchedVideos.length <
        plan.dailyVideoLimit := by
      rw [hrw]
      exact hquota
    have hn : vid ∉ (checkAndResetDailyVideos db user now).1.dailyWatchedVideos := by
      rw [hrw]
      exact hnew
    exact markWatched_referral huser hap hplan hexp hq hn hrb hru href
  · intro pid plan hplan hact hnoplan hbal hnb
    obtain ⟨hok, htx⟩ := buyPlan_no_bonus hplan huser hact hnoplan hbal hnb
    refine ⟨hok, ?_⟩
    intro k
    rw [htx, countTx_append]
    simp
  · intro vid ap plan hap hplan hexp hday hquota hnew hnb
    have hrw := @checkReset_noop db user now hday
    have hq : (checkAndResetDailyVideos db user now).1.dailyWatchedVideos.length <
        plan.dailyVideoLimit := by
      rw [hrw]
      exact hquota
    have hn : vid ∉ (checkAndResetDailyVideos db user now).1.dailyWatchedVideos := by
      rw [hrw]
      exact hnew
    obtain ⟨hok, htx⟩ := markWatched_no_bonus huser hap hplan hexp hq hn hnb
    refine ⟨hok, ?_⟩
    intro k
    rw [htx, countTx_append]
    simp

theorem C6_referral_propagation_witness :
    ((buyPlan dbBuy 2 1 0).1 = .ok () ∧
     (buyPlan dbBuy 2 1 0).2.findUser 1 =
       some { ana with balance := ana.balance + examplePlan.cost * (1/10 : ℚ) } ∧
     countTx (buyPlan dbBuy 2 1 0).2.txns 1 .referral_plan =
       countTx dbBuy.txns 1 .referral_plan + 1 ∧
     (∃ u', (buyPlan dbBuy 2 1 0).2.findUser 2 = some u' ∧
       u'.balance = bruno0.balance - examplePlan.cost) ∧
     countTx (buyPlan dbBuy 2 1 0).2.txns 2 .plan_purchase =
       countTx dbBuy.txns 2 .plan_purchase + 1) ∧
    ((markVideoAsWatched dbQuota 2 7 2000).1 = .ok () ∧
     (markVideoAsWatched dbQuota 2 7 2000).2.findUser 1 =
       some { ana with
         balance := ana.balance + examplePlan.rewardPerVideo * (1/20 : ℚ) } ∧
     countTx (markVideoAsWatched dbQuota 2 7 2000).2.txns 1 .referral_daily =
       countTx dbQuota.txns 1 .referral_daily + 1) :=
  ⟨(C6_referral_propagation dbBuy 2 0 1 bruno0 ana (by rfl)).1 1 examplePlan
      (by rfl) rfl rfl (by decide) rfl (by decide) (by rfl),
   ((C6_referral_propagation dbQuota 2 2000 1 bruno ana (by rfl)).2).1 7 brunoPlanRef
      examplePlan rfl (by rfl) (by decide) ⟨1000, rfl, by decide⟩ (by decide) (by decide)
      rfl (by decide) (by rfl)⟩

/-- A withdrawal request by a holder of an expired plan is refused by the
plan guard, before the balance is ever consulted. -/
lemma requestWithdrawal_expired {db : DB} {uid wid : ℕ} {user : User} {ap : ActivePlan}
    {amount : ℚ} {pm ph : String} {now : ℕ}
    (huser : db.findUser uid = some user)
    (hamt : amount ≠ 0) (hpm : pm ≠ "") (hph : ph ≠ "")
    (hap : user.activePlan = some ap) (hexp : ap.expiryDate < now) :
    requestWithdrawal db uid wid amount pm ph now = (.error .noActivePlan, db) := by
  unfold requestWithdrawal
  rw [huser]
  dsimp only
  rw [if_neg (by simp [hamt, hpm, hph])]
  rw [hap]
  dsimp only
  rw [if_pos (by simp [hexp])]

/-- C7 counterexample: `ana` has no active plan and a balance of 50; a
withdrawal request for 100 exceeds her balance, yet it fails with
`noActivePlan`, not `insufficientFunds` — the plan guard fires first. -/
theorem C7_noplan_masks_insufficient :
    ana.balance < 100 ∧
    requestWithdrawal dbQuota 1 30 100 "M-Pesa" "841234567" 2000 =
      (.error .noActivePlan, dbQuota) ∧
    Err.noActivePlan ≠ Err.insufficientFunds := by
  refine ⟨by decide, ?_, by decide⟩
  exact requestWithdrawal_noplan (by rfl) (by decide) (by decide) (by decide) rfl

/-- C7 (amended): for a withdrawal request whose amount exceeds the balance,
the outcome depends on the plan guard, which runs first: with an unexpired
active plan the request fails with `insufficientFunds`, and with no plan or an
expired plan it fails with `noActivePlan`; in every case no request is stored,
no ledger entry is posted and the database is unchanged. -/
theorem C7_withdrawal_guard_order (db : DB) (uid wid : ℕ) (amount : ℚ)
    (pm ph : String) (now : ℕ) (user : User)
    (huser : db.findUser uid = some user)
    (hamt : amount ≠ 0) (hpm : pm ≠ "") (hph : ph ≠ "")
    (hbal : user.balance < amount) :
    (∀ ap, user.activePlan = some ap → ¬ ap.expiryDate < now →
      requestWithdrawal db uid wid amount pm ph now = (.error .insufficientFunds, db)) ∧
    (user.activePlan = none →
      requestWithdrawal db uid wid amount pm ph now = (.error .noActivePlan, db)) ∧
    (∀ ap, user.activePlan = some ap → ap.expiryDate < now →
      requestWithdrawal db uid wid amount pm ph now = (.error .noActivePlan, db)) := by
  refine ⟨?_, ?_, ?_⟩
  · intro ap hap hexp
    exact requestWithdrawal_insufficient huser hamt hpm hph hap hexp hbal
  · intro hap
    exact requestWithdrawal_noplan huser hamt hpm hph hap
  · intro ap hap hexp
    exact requestWithdrawal_expired huser hamt hpm hph hap hexp

theorem C7_withdrawal_guard_order_witness :
    (∀ ap, bruno.activePlan = some ap → ¬ ap.expiryDate < 2000 →
      requestWithdrawal dbQuota 2 30 1000 "M-Pesa" "841234567" 2000 =
        (.error .insufficientFunds, dbQuota)) ∧
    (bruno.activePlan = none →
      requestWithdrawal dbQuota 2 30 1000 "M-Pesa" "841234567" 2000 =
        (.error .noActivePlan, dbQuota)) ∧
    (∀ ap, bruno.activePlan = some ap → ap.expiryDate < 2000 →
      requestWithdrawal dbQuota 2 30 1000 "M-Pesa" "841234567" 2000 =
        (.error .noActivePlan, dbQuota)) :=
  C7_withdrawal_guard_order dbQuota 2 30 1000 "M-Pesa" "841234567" 2000 bruno
    (by rfl) (by decide) (by decide) (by decide) (by decide)

/-- An account with no plan but a non-empty daily watch set left over from an
earlier subscription, able to afford `examplePlan`. -/
def dirk : User :=
  { id := 4, username := "dirk", email := "dirk@x.com", referralCode := "DIR1",
    balance := 150, referredBy := none, activePlan := none,
    dailyWatchedVideos := [7], lastVideoReset := some 1000, fullWatchedHistory := [7] }

/-- A store where `dirk` can buy `examplePlan`. -/
def dbC8 : DB :=
  { users := [dirk], plans := [examplePlan], videos := [7, 8], txns := [],
    deposits := [], withdrawals := [] }

/-- C8 counterexample: `dirk` starts with daily watch set `[7]`; buying a plan
succeeds but the daily watch set is still `[7]` afterwards — `buyPlan` never
clears it, contrary to the claim. -/
theorem C8_buyPlan_keeps_daily_set :
    dirk.dailyWatchedVideos = [7] ∧
    (buyPlan dbC8 4 1 0).1 = .ok () ∧
    ∃ u', (buyPlan dbC8 4 1 0).2.findUser 4 = some u' ∧
      u'.dailyWatchedVideos = [7] ∧ [7] ≠ ([] : List ℕ) := by
  obtain ⟨hok, u', hfu, hid, hap, hdw, hfwh, hlvr, hbal, hcp⟩ :=
    buyPlan_success_core (show dbC8.findPlan 1 = some examplePlan by rfl)
      (show dbC8.findUser 4 = some dirk by rfl) rfl rfl (by decide)
  exact ⟨rfl, hok, u', hfu, hdw.trans rfl, by decide⟩

/-- C8 (amended): a successful `buyPlan` installs the plan snapshot with
`activationDate = now` and `expiryDate = now + durationInDays` (in milliseconds)
— but it clears nothing: both the daily watch set and the full watch history
are left exactly as they were. -/
theorem C8_buyPlan_amended (db : DB) (uid pid now : ℕ) (user : User) (plan : Plan)
    (hplan : db.findPlan pid = some plan)
    (huser : db.findUser uid = some user)
    (hact : plan.isActive = true)
    (hnoplan : hasUnexpiredPlan user now = false)
    (hbal : ¬ user.balance < plan.cost) :
    (buyPlan db uid pid now).1 = .ok () ∧
    ∃ u', (buyPlan db uid pid now).2.findUser uid = some u' ∧
      u'.activePlan = some
        { planId := plan.id, name := plan.name, activationDate := now,
          expiryDate := now + plan.durationInDays * dayLength } ∧
      u'.dailyWatchedVideos = user.dailyWatchedVideos ∧
      u'.fullWatchedHistory = user.fullWatchedHistory := by
  obtain ⟨hok, u', hfu, hid, hap, hdw, hfwh, hlvr, hbal', hcp⟩ :=
    buyPlan_success_core hplan huser hact hnoplan hbal
  exact ⟨hok, u', hfu, hap, hdw, hfwh⟩

theorem C8_buyPlan_amended_witness :
    (buyPlan dbC8 4 1 0).1 = .ok () ∧
    ∃ u', (buyPlan dbC8 4 1 0).2.findUser 4 = some u' ∧
      u'.activePlan = some
        { planId := examplePlan.id, name := examplePlan.name, activationDate := 0,
          expiryDate := 0 + examplePlan.durationInDays * dayLength } ∧
      u'.dailyWatchedVideos = dirk.dailyWatchedVideos ∧
      u'.fullWatchedHistory = dirk.fullWatchedHistory :=
  C8_buyPlan_amended dbC8 4 1 0 dirk examplePlan (by rfl) (by rfl) rfl rfl (by decide)

/-- C9: for an account with an unexpired active plan already on the current
business day, `getDailyVideos` returns at most `quota - |dailySet|` videos,
none of which is in the daily watch set, and none of which is in the full
watch history — the backfill sample is drawn from a pool that already excludes
both sets.  `hsample` captures the two properties of Mongo's `$sample` stage
used by the code: it draws from the given pool and respects the size cap. -/
theorem C9_daily_videos_fresh (db : DB) (uid now : ℕ) (user : User)
    (ap : ActivePlan) (plan : Plan) (sample : List ℕ → ℕ → List ℕ)
    (huser : db.findUser uid = some user)
    (hap : user.activePlan = some ap)
    (hplan : db.findPlan ap.planId = some plan)
    (hexp : ¬ ap.expiryDate < now)
    (hday : sameDay user now)
    (hsub : ∀ v ∈ user.dailyWatchedVideos, v ∈ db.videos → v ∈ user.fullWatchedHistory)
    (hsample : ∀ l n, (∀ x ∈ sample l n, x ∈ l) ∧ (sample l n).length ≤ n) :
    (getDailyVideos db uid now sample).1.videos.length ≤
      plan.dailyVideoLimit - user.dailyWatchedVideos.length ∧
    (∀ v ∈ (getDailyVideos db uid now sample).1.videos, v ∉ user.dailyWatchedVideos) ∧
    (∀ v ∈ (getDailyVideos db uid now sample).1.videos, v ∉ user.fullWatchedHistory) := by
  have hrw := @checkReset_noop db user now hday
  unfold getDailyVideos
  rw [huser]
  dsimp only
  rw [hap]
  dsimp only
  rw [hplan]
  dsimp only
  rw [if_neg hexp]
  rw [hrw]
  dsimp only
  have hmemA : ∀ v ∈ (db.videos.filter
      (fun v => decide (v ∉ user.fullWatchedHistory))).take
      (plan.dailyVideoLimit - user.dailyWatchedVideos.length),
      v ∈ db.videos ∧ v ∉ user.fullWatchedHistory := by
    intro v hv
    have hv2 := List.mem_filter.1 (List.take_subset _ _ hv)
    exact ⟨hv2.1, of_decide_eq_true hv2.2⟩
  have hdA : ∀ v ∈ (db.videos.filter
      (fun v => decide (v ∉ user.fullWatchedHistory))).take
      (plan.dailyVideoLimit - user.dailyWatchedVideos.length),
      v ∉ user.dailyWatchedVideos := by
    intro v hv hvd
    exact (hmemA v hv).2 (hsub v hvd (hmemA v hv).1)
  have hmemB : ∀ n, ∀ v ∈ sample (db.videos.filter (fun v =>
      decide (v ∉ user.fullWatchedHistory ∧ v ∉ user.dailyWatchedVideos))) n,
      v ∉ user.fullWatchedHistory ∧ v ∉ user.dailyWatchedVideos := by
    intro n v hv
    have hv2 := List.mem_filter.1 ((hsample _ n).1 v hv)
    exact of_decide_eq_true hv2.2
  by_cases hc : plan.dailyVideoLimit - user.dailyWatchedVideos.length = 0
  · rw [if_pos hc]
    exact ⟨by simp, by simp, by simp⟩
  · rw [if_neg hc]
    by_cases hlt :
        ((db.videos.filter (fun v => decide (v ∉ user.fullWatchedHistory))).take
          (plan.dailyVideoLimit - user.dailyWatchedVideos.length)).length <
        plan.dailyVideoLimit - user.dailyWatchedVideos.length
    · rw [if_pos hlt]
      dsimp only
      refine ⟨?_, ?_, ?_⟩
      · rw [List.length_append]
        have hb := (hsample (db.videos.filter (fun v =>
          decide (v ∉ user.fullWatchedHistory ∧ v ∉ user.dailyWatchedVideos)))
          ((plan.dailyVideoLimit - user.dailyWatchedVideos.length) -
            ((db.videos.filter (fun v => decide (v ∉ user.fullWatchedHistory))).take
              (plan.dailyVideoLimit - user.dailyWatchedVideos.length)).length)).2
        omega
      · intro v hv
        rcases List.mem_append.1 hv with hva | hvb
        · exact hdA v hva
        · exact (hmemB _ v hvb).2
      · intro v hv
        rcases List.mem_append.1 hv with hva | hvb
        · exact (hmemA v hva).2
        · exact (hmemB _ v hvb).1
    · rw [if_neg hlt]
      dsimp only
      refine ⟨?_, ?_, ?_⟩
      · rw [List.length_take]
        exact min_le_left _ _
      · exact hdA
      · exact fun v hv => (hmemA v hv).2

theorem C9_daily_videos_fresh_witness :
    (getDailyVideos dbQuota 2 2000 (fun l n => l.take n)).1.videos.length ≤
      examplePlan.dailyVideoLimit - bruno.dailyWatchedVideos.length ∧
    (∀ v ∈ (getDailyVideos dbQuota 2 2000 (fun l n => l.take n)).1.videos,
      v ∉ bruno.dailyWatchedVideos) ∧
    (∀ v ∈ (getDailyVideos dbQuota 2 2000 (fun l n => l.take n)).1.videos,
      v ∉ bruno.fullWatchedHistory) :=
  C9_daily_videos_fresh dbQuota 2 2000 bruno brunoPlanRef examplePlan (fun l n => l.take n)
    (by rfl) rfl (by rfl) (by decide) ⟨1000, rfl, by decide⟩
    (fun v hv => absurd hv (List.not_mem_nil v))
    (fun l n => ⟨fun x hx => List.take_subset n l hx, by
      rw [List.length_take]
      exact min_le_left _ _⟩)

/-- An account whose daily watch set and full history both hold video 9. -/
def erik : User :=
  { id := 5, username := "erik", email := "erik@x.com", referralCode := "ERI1",
    balance := 0, referredBy := none, activePlan := none,
    dailyWatchedVideos := [9], lastVideoReset := some 1000, fullWatchedHistory := [9] }

/-- A store holding `erik` and video 9. -/
def dbC10 : DB :=
  { users := [erik], plans := [], videos := [9], txns := [], deposits := [],
    withdrawals := [] }

/-- C10 counterexample: in `dbC10` the daily watch set `[9]` is contained in
the full history `[9]`, but `deleteVideo` pulls the video from every full
history while leaving daily sets untouched, so afterwards `erik`'s daily set
still holds 9 while his full history no longer does — the unqualified
containment is not preserved by every operation. -/
theorem C10_deleteVideo_breaks_subset :
    (∀ u ∈ dbC10.users, ∀ v ∈ u.dailyWatchedVideos, v ∈ u.fullWatchedHistory) ∧
    (deleteVideo dbC10 9).1 = .ok () ∧
    ((deleteVideo dbC10 9).2.findUser 5).map
        (fun u => (u.dailyWatchedVideos, u.fullWatchedHistory)) =
      some ([9], []) ∧
    9 ∈ ([9] : List ℕ) ∧ 9 ∉ ([] : List ℕ) := by
  refine ⟨by decide, by rfl, by rfl, by decide, by decide⟩

/-- C10 (amended): in every reachable state, a video in an account's daily
watch set that still exists in the video store is also in the account's full
watch history — `markVideoAsWatched` adds to both sets together and the lazy
reset only empties the daily set, but `deleteVideo` removes only from the full
history, so the containment holds only relative to the surviving videos. -/
theorem C10_watch_subset_amended (db : DB) (h : Reachable db) :
    ∀ u ∈ db.users, ∀ v ∈ u.dailyWatchedVideos, v ∈ db.videos →
      v ∈ u.fullWatchedHistory :=
  reachable_watchInv h

theorem C10_watch_subset_amended_witness :
    ∃ u ∈ dbSignup.users, ∀ v ∈ u.dailyWatchedVideos, v ∈ dbSignup.videos →
      v ∈ u.fullWatchedHistory :=
  ⟨ana, by decide,
    C10_watch_subset_amended dbSignup
      (Relation.ReflTransGen.single
        (Step.register DB.init 1 "ana" "ana@x.com" "pw" none "ANA1")) ana (by decide)⟩

end Party
